import Mathlib

/-!
Verification development for the OCS data-aggregator agent
(`agents/aggregator/aggregator_agent.py`).

The Python class `DataAggregator` is shallowly embedded as a pure state
machine.  Python dicts (`self.buffers`, `self.buffer_start_times`, the
per-frame `tods`/`timestamps` dicts) are modelled as insertion-ordered
association lists with the exact dict semantics used by CPython (updating
an existing key keeps its position, a fresh key is appended at the end).
`time.time()` values and sample timestamps/readings are modelled as
integers (an ordered, subtractable time axis; nothing in the code depends
on fractional values).  Python exceptions are modelled by an explicit
error channel:
stateful operations return `State × Option PyErr`, where the returned
state reflects exactly the mutations that happened before the raise.

Two ghost (instrumentation) fields are carried in the state and touched
by no control decision:
  * `writes`       : one entry per invocation of `write_frame_to_file`
                     (the Frame Serializer), recording the feed address
                     and the sample list it was handed;
  * `driver_subs`  : one entry per `agent.subscribe_to_feed` registration
                     performed by `add_feed`.
The G3 file sink is modelled as the list of frames written to it; closed
files are collected in `closed_files`, the currently open `G3Writer` is
`file : Option (List OutFrame)` (`None` when no file has been started).
-/

/-- A sample point delivered on a feed: the Python dict
`{key: (timestamp, reading), ...}`, one entry per timestream key. -/
abbrev DataPoint := List (String × ℤ × ℤ)

/-- Payload of one feed callback: a self-buffered feed publishes a batch
(list of data points), an engine-buffered feed publishes a single point. -/
inductive Payload where
  | point (p : DataPoint)
  | batch (b : List DataPoint)
  deriving DecidableEq, Repr

/-- The feed metadata dict handed to `_data_handler` alongside the data:
`feed["address"]`, `feed["buffered"]`, `feed["buffer_time"]`. -/
structure FeedMeta where
  address : String
  buffered : Bool
  buffer_time : ℤ
  deriving DecidableEq, Repr

/-- Python exceptions that the aggregator code can raise. -/
inductive PyErr where
  | keyError (k : String)
  | valueError
  | typeError
  deriving DecidableEq, Repr

/-- A housekeeping G3 frame as written by `write_frame_to_file`:
`frame["agent_address"]`, `frame["feed"]`, `frame["TODs"]`,
`frame["Timestamps"]` (the two timestream maps, as ordered dicts). -/
structure Frame where
  agent_address : String
  feed : String
  tods : List (String × List ℤ)
  timestamps : List (String × List ℤ)
  deriving DecidableEq, Repr

/-- One frame in a G3 file: a housekeeping frame or the terminal
`EndProcessing` frame written by `end_file`. -/
inductive OutFrame where
  | hk (f : Frame)
  | endProcessing
  deriving DecidableEq, Repr

/-- State of a `DataAggregator` instance (plus ghost instrumentation). -/
structure AggState where
  subscribed_feeds : List String
  buffers : List (String × List DataPoint)
  buffer_start_times : List (String × ℤ)
  aggregate : Bool
  file : Option (List OutFrame)
  closed_files : List (List OutFrame)
  writes : List (String × List DataPoint)
  driver_subs : List (String × String)
  deriving DecidableEq, Repr

/-- `DataAggregator.__init__`: no subscriptions, empty dicts, not
aggregating, no file. -/
def init_state : AggState :=
  { subscribed_feeds := []
    buffers := []
    buffer_start_times := []
    aggregate := false
    file := none
    closed_files := []
    writes := []
    driver_subs := [] }

/-- Dict lookup `d[k]` on an insertion-ordered association list. -/
def dget {β : Type} : List (String × β) → String → Option β
  | [], _ => none
  | (k', v) :: rest, k => if k' = k then some v else dget rest k

/-- Dict assignment `d[k] = v`: replaces the value in place if the key is
present (keeping its position), otherwise appends the new key at the end,
exactly as a CPython dict does. -/
def dset {β : Type} : List (String × β) → String → β → List (String × β)
  | [], k, v => [(k, v)]
  | (k', v') :: rest, k, v =>
      if k' = k then (k, v) :: rest else (k', v') :: dset rest k v

/-- Splitting a character list on the separator `".feeds."`, with
Python's `str.split` semantics: non-overlapping matches scanned left to
right, empty parts kept. -/
def splitFeedsChars : List Char → List (List Char)
  | [] => [[]]
  | '.' :: 'f' :: 'e' :: 'e' :: 'd' :: 's' :: '.' :: rest =>
      [] :: splitFeedsChars rest
  | c :: rest =>
      (c :: (splitFeedsChars rest).headD []) :: (splitFeedsChars rest).tail

/-- `feed_address.split(".feeds.")`. -/
def splitFeeds (s : String) : List String :=
  (splitFeedsChars s.toList).map (fun cs => String.mk cs)

/-- `"{}.feeds.{}".format(agent_address, feed_name)`. -/
def mkFeedAddress (agent_address feed_name : String) : String :=
  agent_address ++ ".feeds." ++ feed_name

/-- The update `d[key].append(x)` performed on the `tods` / `timestamps`
dicts of `write_frame_to_file`: append to the existing list if the key is
present, otherwise start a fresh singleton list (`tods[key] = [x]`). -/
def dappend (d : List (String × List ℤ)) (k : String) (x : ℤ) :
    List (String × List ℤ) :=
  match dget d k with
  | some l => dset d k (l ++ [x])
  | none => dset d k [x]

/-- The dict-building loop of `write_frame_to_file`:
`for data_point in buffer: for key, val in data_point.items(): ...`,
selecting one component of `val` (`val[1]` for `tods`, `val[0]` for
`timestamps`). -/
def buildDict (sel : ℤ × ℤ → ℤ) (buffer : List DataPoint) :
    List (String × List ℤ) :=
  buffer.foldl (fun d dp => dp.foldl (fun d e => dappend d e.1 (sel e.2)) d) []

/-- The housekeeping frame `write_frame_to_file` constructs for a given
feed address and buffer (`val[1]` goes to `TODs`, `val[0]` to
`Timestamps`). -/
def mkRecord (feed_address : String) (buffer : List DataPoint) : Frame :=
  { agent_address := (splitFeeds feed_address).headD ""
    feed := ((splitFeeds feed_address).tail).headD ""
    tods := buildDict (fun v => v.2) buffer
    timestamps := buildDict (fun v => v.1) buffer }

/-- `DataAggregator.write_frame_to_file`.  The ghost `writes` log records
the invocation (address and sample list) unconditionally.  The unpacking
`frame["agent_address"], frame["feed"] = feed_address.split(".feeds.")`
raises `ValueError` unless the split has exactly two parts; `self.file(frame)`
raises `TypeError` when no file is open (`self.file is None`). -/
def write_frame_to_file (st0 : AggState) (feed_address : String)
    (buffer : List DataPoint) : AggState × Option PyErr :=
  let st := { st0 with writes := st0.writes ++ [(feed_address, buffer)] }
  match splitFeeds feed_address with
  | [_, _] =>
      match st.file with
      | none => (st, some .typeError)
      | some fs =>
          ({ st with file := some (fs ++ [.hk (mkRecord feed_address buffer)]) },
           none)
  | _ => (st, some .valueError)

/-- The `_data_handler` closure registered by `add_feed`: drop when not
aggregating; immediately serialize a self-buffered feed's batch; otherwise
time-window the point into the per-feed buffer, flushing first when the
window `feed["buffer_time"]` has been strictly exceeded.  `now` is the
value of `time.time()` at the invocation.  Dict lookups that miss raise
`KeyError`; a payload whose shape does not match the feed's kind dies in
the iteration over it (`TypeError`). -/
def _data_handler (st : AggState) (payload : Payload) (feed : FeedMeta)
    (now : ℤ) : AggState × Option PyErr :=
  if st.aggregate = false then (st, none)
  else
    let addr := feed.address
    if feed.buffered then
      match payload with
      | .batch b => write_frame_to_file st addr b
      | .point _ => (st, some .typeError)
    else
      match payload with
      | .batch _ => (st, some .typeError)
      | .point p =>
          match dget st.buffers addr with
          | none => (st, some (.keyError addr))
          | some buf =>
              let st1 :=
                if buf = [] then
                  { st with buffer_start_times := dset st.buffer_start_times addr now }
                else st
              match dget st1.buffer_start_times addr with
              | none => (st1, some (.keyError addr))
              | some t0 =>
                  if now - t0 > feed.buffer_time then
                    match write_frame_to_file st1 addr buf with
                    | (st2, some e) => (st2, some e)
                    | (st2, none) =>
                        let st3 :=
                          { st2 with
                            buffer_start_times := dset st2.buffer_start_times addr now,
                            buffers := dset st2.buffers addr [] }
                        ({ st3 with buffers := dset st3.buffers addr [p] }, none)
                  else
                    ({ st1 with buffers := dset st1.buffers addr (buf ++ [p]) }, none)

/-- `DataAggregator.add_feed`: construct the feed address; return
unchanged if already subscribed; otherwise register the handler with the
driver layer, record the subscription, and create an empty buffer. -/
def add_feed (st : AggState) (agent_address feed_name : String) : AggState :=
  let feed_address := mkFeedAddress agent_address feed_name
  if feed_address ∈ st.subscribed_feeds then st
  else
    { st with
      driver_subs := st.driver_subs ++ [(agent_address, feed_name)],
      subscribed_feeds := st.subscribed_feeds ++ [feed_address],
      buffers := dset st.buffers feed_address [] }

/-- Parameter dict of the `add_feed` task; `none` fields model missing
keys. -/
structure AddFeedParams where
  agent_address : Option String
  feed_name : Option String
  deriving DecidableEq, Repr

/-- `DataAggregator.add_feed_task`: `params = None` becomes `{}`; the
required keys are read with `params[...]` (raising `KeyError` when
missing); a duplicate address returns the non-fatal
`(False, "Already subscribed ...")` result without re-registering. -/
def add_feed_task (st : AggState) (params : Option AddFeedParams) :
    AggState × Except PyErr (Bool × String) :=
  let ps := params.getD ⟨none, none⟩
  match ps.agent_address with
  | none => (st, .error (.keyError "agent_address"))
  | some aa =>
      match ps.feed_name with
      | none => (st, .error (.keyError "feed_name"))
      | some fn =>
          let feed_address := mkFeedAddress aa fn
          if feed_address ∈ st.subscribed_feeds then
            (st, .ok (false, "Already subscribed to feed " ++ feed_address))
          else
            (add_feed st aa fn, .ok (true, "Subscribed to data feeds."))

/-- `DataAggregator.start_file`: replace `self.file` with a fresh writer;
the previously open file (if any) is thereby closed. -/
def start_file (st : AggState) : AggState :=
  { st with
    closed_files := st.closed_files ++ (match st.file with
      | none => []
      | some f => [f]),
    file := some [] }

/-- The flush loop of `end_file`:
`for k, v in self.buffers.items(): if v: write_frame_to_file(k, v); self.buffers[k] = []`.
The iteration runs over the snapshot of the dict items; an exception from
a write propagates immediately, leaving that feed's buffer (and all later
ones) untouched. -/
def end_file_loop (st : AggState) :
    List (String × List DataPoint) → AggState × Option PyErr
  | [] => (st, none)
  | (k, v) :: rest =>
      if v = [] then end_file_loop st rest
      else
        match write_frame_to_file st k v with
        | (st', none) =>
            end_file_loop { st' with buffers := dset st'.buffers k [] } rest
        | (st', some e) => (st', some e)

/-- `DataAggregator.end_file`: flush all non-empty buffers to the current
file, then write the terminal `EndProcessing` frame. -/
def end_file (st : AggState) : AggState × Option PyErr :=
  match end_file_loop st st.buffers with
  | (st', some e) => (st', some e)
  | (st', none) =>
      match st'.file with
      | none => (st', some .typeError)
      | some fs => ({ st' with file := some (fs ++ [.endProcessing]) }, none)

/-- `DataAggregator.stop_aggregate`: clear the aggregation flag and
report success. -/
def stop_aggregate (st : AggState) : AggState × (Bool × String) :=
  ({ st with aggregate := false }, (true, "Stopped aggregation"))

/-- Parameter dict of the `aggregate` process; `none` fields model
missing keys (all three parameters are optional). -/
structure StartParams where
  time_per_file : Option ℤ
  time_per_frame : Option ℤ
  data_dir : Option String
  deriving DecidableEq, Repr

/-- The parameter parsing of `start_aggregate`: `params = None` becomes
`{}`, and every parameter falls back to its default (`60*60`, `60*10`,
`"data/"`); no parameter is required. -/
def start_params (params : Option StartParams) : ℤ × ℤ × String :=
  let ps := params.getD ⟨none, none, none⟩
  (ps.time_per_file.getD (60 * 60), ps.time_per_frame.getD (60 * 10),
   ps.data_dir.getD "data/")

/-- The prefix of `start_aggregate` up to the first `time.sleep`: set
`self.aggregate = True`, then (first loop iteration, `new_file_time` is
`True`) run `end_file` if a file is already open, and `start_file`. -/
def start_agg_init (st : AggState) : AggState × Option PyErr :=
  let st1 := { st with aggregate := true }
  match st1.file with
  | some _ =>
      match end_file st1 with
      | (st2, some e) => (st2, some e)
      | (st2, none) => (start_file st2, none)
  | none => (start_file st1, none)

/-- One event interleaved with the `start_aggregate` loop while the
engine is running: a feed callback delivery, or a segment rotation
(the loop body taken with `new_file_time = True`). -/
inductive MidEvent where
  | deliver (payload : Payload) (meta : FeedMeta) (now : ℤ)
  | rotate
  deriving DecidableEq, Repr

/-- Effect of one mid-run event. -/
def stepMid (st : AggState) : MidEvent → AggState × Option PyErr
  | .deliver p m now => _data_handler st p m now
  | .rotate =>
      match st.file with
      | some _ =>
          match end_file st with
          | (st', some e) => (st', some e)
          | (st', none) => (start_file st', none)
      | none => (start_file st, none)

/-- Run a list of mid-run events, collecting every error raised. -/
def stepMids : AggState → List MidEvent → AggState × List PyErr
  | st, [] => (st, [])
  | st, e :: rest =>
      match stepMid st e with
      | (st', err) =>
          match stepMids st' rest with
          | (st'', errs) => (st'', err.toList ++ errs)

/-- A complete run of the `aggregate` process: `start_aggregate` enters
the loop, the given events happen while it runs, a stop command clears
`self.aggregate`, the loop exits and the final `end_file` runs. -/
def runAgg (st0 : AggState) (mids : List MidEvent) : AggState × List PyErr :=
  match start_agg_init st0 with
  | (st1, some e) => (st1, [e])
  | (st1, none) =>
      match stepMids st1 mids with
      | (st2, errs) =>
          let st3 := (stop_aggregate st2).1
          match end_file st3 with
          | (st4, some e) => (st4, errs ++ [e])
          | (st4, none) => (st4, errs)

/-- Samples of one feed's timestream `k`, in arrival order: for each
data point of the buffer, its `(timestamp, reading)` entries under key
`k`. -/
def perKey (k : String) (samples : List DataPoint) : List (ℤ × ℤ) :=
  samples.flatMap (fun dp => (dp.filter (fun e => e.1 = k)).map (fun e => e.2))

/-- Concatenation of all sample lists the Frame Serializer was handed for
a given feed address, in invocation order. -/
def flushWritesFor (addr : String) (writes : List (String × List DataPoint)) :
    List DataPoint :=
  (writes.filter (fun w => w.1 = addr)).flatMap (fun w => w.2)

/-- The data points an engine-buffered delivery event contributes to
feed `addr` (empty for rotations and for other feeds). -/
def deliveredForE (addr : String) : MidEvent → List DataPoint
  | .deliver (.point p) m _ =>
      if m.address = addr ∧ m.buffered = false then [p] else []
  | _ => []

/-- All data points delivered to engine-buffered feed `addr` during a
list of mid-run events, in delivery order. -/
def deliveredFor (addr : String) (mids : List MidEvent) : List DataPoint :=
  mids.flatMap (deliveredForE addr)

/-- All files of a run, closed ones first, then the currently open one. -/
def allFiles (st : AggState) : List (List OutFrame) :=
  st.closed_files ++ (match st.file with
    | none => []
    | some f => [f])

/-- The housekeeping frames of one file, in order. -/
def hkFrames (fs : List OutFrame) : List Frame :=
  fs.filterMap (fun f => match f with
    | .hk fr => some fr
    | .endProcessing => none)

/-- Housekeeping frames across a list of files, in order. -/
def hkJoin (files : List (List OutFrame)) : List Frame :=
  files.flatMap hkFrames

/-- Keys of a dict are pairwise distinct (always true of a Python dict;
an invariant of our association lists). -/
def NodupKeys {β : Type} (d : List (String × β)) : Prop :=
  (d.map Prod.fst).Nodup

/-- Registry/buffer consistency: every subscribed feed address has an
entry in the buffer dict. -/
def regInv (st : AggState) : Prop :=
  ∀ a ∈ st.subscribed_feeds, (dget st.buffers a).isSome

/-- Start-time consistency: every non-empty buffer has a recorded start
time. -/
def startTimeInv (st : AggState) : Prop :=
  ∀ a buf, dget st.buffers a = some buf → buf ≠ [] →
    (dget st.buffer_start_times a).isSome

/-- The ghost frame correspondence: the housekeeping frames across all
files are exactly, in order, the records of the logged serializer
invocations. -/
def framesOK (st : AggState) : Prop :=
  hkJoin (allFiles st) = st.writes.map (fun w => mkRecord w.1 w.2)

/-- How a block of new samples for a key extends that key's column in the
`tods`/`timestamps` dicts: an absent entry stays absent when there is
nothing to add and is created otherwise; an existing entry is appended
to (used to state the `buildDict` lemmas). -/
def extendCol (o : Option (List ℤ)) (l : List ℤ) : Option (List ℤ) :=
  match o with
  | none => if l = [] then none else some l
  | some l0 => some (l0 ++ l)

/-! ### Dictionary lemmas -/

theorem dget_dset_self {β : Type} (d : List (String × β)) (k : String) (v : β) :
    dget (dset d k v) k = some v := by
  induction d with
  | nil => simp [dget, dset]
  | cons p rest ih =>
      obtain ⟨k', v'⟩ := p
      by_cases h : k' = k
      · simp [dget, dset, h]
      · simp [dget, dset, h, ih]

theorem dget_dset_ne {β : Type} (d : List (String × β)) (k k' : String) (v : β)
    (h : k ≠ k') : dget (dset d k v) k' = dget d k' := by
  induction d with
  | nil => simp [dget, dset, h]
  | cons p rest ih =>
      obtain ⟨k'', v''⟩ := p
      by_cases h2 : k'' = k
      · subst h2
        simp [dget, dset, h]
      · simp [dget, dset, h2]
        by_cases h3 : k'' = k'
        · simp [h3, dget]
        · simp [dget, h3, ih]

theorem dget_eq_none_iff {β : Type} (d : List (String × β)) (k : String) :
    dget d k = none ↔ k ∉ d.map Prod.fst := by
  induction d with
  | nil => simp [dget]
  | cons p rest ih =>
      obtain ⟨k', v'⟩ := p
      by_cases h : k' = k
      · simp [dget, h]
      · simp [dget, h, ih, Ne.symm h]

theorem keys_dset_isSome {β : Type} (d : List (String × β)) (k : String) (v : β)
    (h : (dget d k).isSome) : (dset d k v).map Prod.fst = d.map Prod.fst := by
  induction d with
  | nil => simp [dget] at h
  | cons p rest ih =>
      obtain ⟨k', v'⟩ := p
      by_cases h2 : k' = k
      · simp [dset, h2]
      · simp [dget, h2] at h
        simp [dset, h2, ih h]

theorem keys_dset_none {β : Type} (d : List (String × β)) (k : String) (v : β)
    (h : dget d k = none) : (dset d k v).map Prod.fst = d.map Prod.fst ++ [k] := by
  induction d with
  | nil => simp [dset]
  | cons p rest ih =>
      obtain ⟨k', v'⟩ := p
      by_cases h2 : k' = k
      · simp [dget, h2] at h
      · simp [dget, h2] at h
        simp [dset, h2, ih h]

theorem nodupKeys_dset {β : Type} (d : List (String × β)) (k : String) (v : β)
    (h : NodupKeys d) : NodupKeys (dset d k v) := by
  rcases h2 : dget d k with _ | v'
  · have hk : k ∉ d.map Prod.fst := (dget_eq_none_iff d k).mp h2
    unfold NodupKeys at h ⊢
    rw [keys_dset_none d k v h2]
    refine List.Nodup.append h (List.nodup_singleton k) ?_
    intro a ha hb
    simp only [List.mem_singleton] at hb
    subst hb
    exact hk ha
  · unfold NodupKeys
    rw [keys_dset_isSome d k v (by simp [h2])]
    exact h

theorem dget_isSome_dset {β : Type} (d : List (String × β)) (k k' : String) (v : β)
    (h : (dget d k').isSome) : (dget (dset d k v) k').isSome := by
  by_cases h2 : k = k'
  · subst h2
    simp [dget_dset_self]
  · rw [dget_dset_ne d k k' v h2]
    exact h

theorem dget_eq_some_split {β : Type} (d : List (String × β)) (k : String) (v : β)
    (h : dget d k = some v) :
    ∃ d1 d2, d = d1 ++ (k, v) :: d2 ∧ ∀ p ∈ d1, p.1 ≠ k := by
  induction d with
  | nil => simp [dget] at h
  | cons p rest ih =>
      obtain ⟨k', v'⟩ := p
      by_cases h2 : k' = k
      · subst h2
        simp [dget] at h
        subst h
        exact ⟨[], rest, by simp⟩
      · simp [dget, h2] at h
        obtain ⟨d1, d2, hd, hne⟩ := ih h
        refine ⟨(k', v') :: d1, d2, by simp [hd], ?_⟩
        intro p hp
        rcases List.mem_cons.mp hp with h3 | h3
        · subst h3
          exact h2
        · exact hne p h3

/-! ### Frame Serializer effect lemmas -/

theorem wftf_spec (st : AggState) (a : String) (b : List DataPoint)
    (st' : AggState) (e : Option PyErr)
    (h : write_frame_to_file st a b = (st', e)) :
    st'.buffers = st.buffers ∧ st'.buffer_start_times = st.buffer_start_times ∧
    st'.aggregate = st.aggregate ∧ st'.subscribed_feeds = st.subscribed_feeds ∧
    st'.driver_subs = st.driver_subs ∧ st'.writes = st.writes ++ [(a, b)] ∧
    st'.closed_files = st.closed_files := by
  simp only [write_frame_to_file] at h
  split at h
  · split at h
    · obtain ⟨rfl, rfl⟩ := Prod.mk.injEq .. ▸ h
      simp
    · obtain ⟨rfl, rfl⟩ := Prod.mk.injEq .. ▸ h
      simp
  · obtain ⟨rfl, rfl⟩ := Prod.mk.injEq .. ▸ h
    simp

theorem wftf_none (st : AggState) (a : String) (b : List DataPoint)
    (st' : AggState) (h : write_frame_to_file st a b = (st', none)) :
    ∃ fs x y, splitFeeds a = [x, y] ∧ st.file = some fs ∧
      st'.file = some (fs ++ [.hk (mkRecord a b)]) := by
  simp only [write_frame_to_file] at h
  split at h
  · rename_i x y heq
    split at h
    · simp at h
    · rename_i fs hfs
      obtain ⟨rfl, -⟩ := Prod.mk.injEq .. ▸ h
      exact ⟨fs, x, y, heq, hfs, rfl⟩
  · simp at h

theorem wftf_err (st : AggState) (a : String) (b : List DataPoint)
    (st' : AggState) (e : PyErr) (h : write_frame_to_file st a b = (st', some e)) :
    st'.file = st.file := by
  simp only [write_frame_to_file] at h
  split at h
  · split at h
    · obtain ⟨rfl, -⟩ := Prod.mk.injEq .. ▸ h
      simp_all
    · simp at h
  · obtain ⟨rfl, -⟩ := Prod.mk.injEq .. ▸ h
    simp

/-! ### Data handler characterization lemmas -/

theorem dset_dset {β : Type} (d : List (String × β)) (k : String) (v w : β) :
    dset (dset d k v) k w = dset d k w := by
  induction d with
  | nil => simp [dset]
  | cons p rest ih =>
      obtain ⟨k', v'⟩ := p
      by_cases h : k' = k
      · simp [dset, h]
      · simp [dset, h, ih]

theorem handler_drop (st : AggState) (p : Payload) (m : FeedMeta) (now : ℤ)
    (h : st.aggregate = false) : _data_handler st p m now = (st, none) := by
  simp [_data_handler, h]

theorem handler_batch (st : AggState) (b : List DataPoint) (m : FeedMeta) (now : ℤ)
    (hagg : st.aggregate = true) (hb : m.buffered = true) :
    _data_handler st (.batch b) m now = write_frame_to_file st m.address b := by
  simp [_data_handler, hagg, hb]

theorem handler_nokey (st : AggState) (p : DataPoint) (m : FeedMeta) (now : ℤ)
    (hagg : st.aggregate = true) (hb : m.buffered = false)
    (hbuf : dget st.buffers m.address = none) :
    _data_handler st (.point p) m now = (st, some (.keyError m.address)) := by
  simp [_data_handler, hagg, hb, hbuf]

theorem handler_point_empty (st : AggState) (p : DataPoint) (m : FeedMeta) (now : ℤ)
    (hagg : st.aggregate = true) (hb : m.buffered = false)
    (hbuf : dget st.buffers m.address = some [])
    (hT : ¬ (now - now > m.buffer_time)) :
    _data_handler st (.point p) m now =
      ({ st with
         buffer_start_times := dset st.buffer_start_times m.address now,
         buffers := dset st.buffers m.address [p] }, none) := by
  have hT2 : ¬ m.buffer_time < 0 := by simpa using hT
  simp only [_data_handler, hagg, hb, hbuf]
  simp [dget_dset_self, hT2, hagg]

theorem handler_point_no_flush (st : AggState) (p : DataPoint) (m : FeedMeta)
    (now t0 : ℤ) (buf : List DataPoint)
    (hagg : st.aggregate = true) (hb : m.buffered = false)
    (hbuf : dget st.buffers m.address = some buf) (hne : buf ≠ [])
    (ht0 : dget st.buffer_start_times m.address = some t0)
    (hT : ¬ (now - t0 > m.buffer_time)) :
    _data_handler st (.point p) m now =
      ({ st with buffers := dset st.buffers m.address (buf ++ [p]) }, none) := by
  simp only [_data_handler, hagg, hb, hbuf]
  simp [hne, ht0, hT, hagg]

theorem handler_point_flush_ok (st : AggState) (p : DataPoint) (m : FeedMeta)
    (now t0 : ℤ) (buf : List DataPoint) (fs : List OutFrame) (x y : String)
    (hagg : st.aggregate = true) (hb : m.buffered = false)
    (hbuf : dget st.buffers m.address = some buf) (hne : buf ≠ [])
    (ht0 : dget st.buffer_start_times m.address = some t0)
    (hT : now - t0 > m.buffer_time)
    (hfile : st.file = some fs) (hsplit : splitFeeds m.address = [x, y]) :
    _data_handler st (.point p) m now =
      ({ st with
         writes := st.writes ++ [(m.address, buf)],
         file := some (fs ++ [.hk (mkRecord m.address buf)]),
         buffer_start_times := dset st.buffer_start_times m.address now,
         buffers := dset st.buffers m.address [p] }, none) := by
  simp only [_data_handler, hagg, hb, hbuf]
  simp only [write_frame_to_file, hsplit, hfile]
  simp [hne, ht0, hT, hagg, hfile, dset_dset]

theorem handler_point_flush_err (st stw : AggState) (p : DataPoint) (m : FeedMeta)
    (now t0 : ℤ) (buf : List DataPoint) (e : PyErr)
    (hagg : st.aggregate = true) (hb : m.buffered = false)
    (hbuf : dget st.buffers m.address = some buf) (hne : buf ≠ [])
    (ht0 : dget st.buffer_start_times m.address = some t0)
    (hT : now - t0 > m.buffer_time)
    (hwf : write_frame_to_file st m.address buf = (stw, some e)) :
    _data_handler st (.point p) m now = (stw, some e) := by
  simp only [_data_handler, hagg, hb, hbuf]
  simp [hne, ht0, hT, hwf]

/-! ### Claim C2: buffer flush threshold -/

/-- C2: for an engine-buffered feed, an arriving sample (i) finds an empty
buffer: the buffer start time is set to the arrival time and the sample is
appended; (ii) finds `now - buffer_start_time > buffer_time`: the current
buffer is serialized (one frame written, one serializer invocation logged)
and cleared before the new sample is appended, and the start time is reset
to the new sample's arrival time; (iii) otherwise: the sample is appended
with no flush and an unchanged start time. -/
theorem C2_buffer_flush_threshold (st : AggState) (p : DataPoint) (m : FeedMeta)
    (now t0 : ℤ) (buf : List DataPoint) (fs : List OutFrame) (x y : String)
    (hagg : st.aggregate = true) (hb : m.buffered = false)
    (hbuf : dget st.buffers m.address = some buf)
    (hfile : st.file = some fs) (hsplit : splitFeeds m.address = [x, y]) :
    (buf = [] → ¬ m.buffer_time < 0 →
      _data_handler st (.point p) m now =
        ({ st with
           buffer_start_times := dset st.buffer_start_times m.address now,
           buffers := dset st.buffers m.address [p] }, none)) ∧
    (buf ≠ [] → dget st.buffer_start_times m.address = some t0 →
      now - t0 > m.buffer_time →
      _data_handler st (.point p) m now =
        ({ st with
           writes := st.writes ++ [(m.address, buf)],
           file := some (fs ++ [.hk (mkRecord m.address buf)]),
           buffer_start_times := dset st.buffer_start_times m.address now,
           buffers := dset st.buffers m.address [p] }, none)) ∧
    (buf ≠ [] → dget st.buffer_start_times m.address = some t0 →
      ¬ now - t0 > m.buffer_time →
      _data_handler st (.point p) m now =
        ({ st with buffers := dset st.buffers m.address (buf ++ [p]) }, none)) := by
  refine ⟨?_, ?_, ?_⟩
  · intro he hT
    subst he
    exact handler_point_empty st p m now hagg hb hbuf (by simpa using hT)
  · intro hne ht0 hT
    exact handler_point_flush_ok st p m now t0 buf fs x y hagg hb hbuf hne ht0 hT
      hfile hsplit
  · intro hne ht0 hT
    exact handler_point_no_flush st p m now t0 buf hagg hb hbuf hne ht0 hT

/-- C2 witness: the spec's threshold scenario (times scaled by 10 onto the
integer axis): two samples in one window, a third sample past the window
flushes exactly the first two and leaves only itself buffered, with the
start time reset to its arrival time. -/
theorem C2_buffer_flush_threshold_witness :
    (_data_handler
        ⟨["dev1.feeds.therm"],
         [("dev1.feeds.therm", [[("ch1", 0, 10)], [("ch1", 5, 11)]])],
         [("dev1.feeds.therm", 0)], true, some [], [], [], []⟩
        (.point [("ch1", 12, 12)]) ⟨"dev1.feeds.therm", false, 10⟩ 12).1.writes =
      [("dev1.feeds.therm", [[("ch1", 0, 10)], [("ch1", 5, 11)]])] ∧
    dget (_data_handler
        ⟨["dev1.feeds.therm"],
         [("dev1.feeds.therm", [[("ch1", 0, 10)], [("ch1", 5, 11)]])],
         [("dev1.feeds.therm", 0)], true, some [], [], [], []⟩
        (.point [("ch1", 12, 12)]) ⟨"dev1.feeds.therm", false, 10⟩ 12).1.buffers
        "dev1.feeds.therm" = some [[("ch1", 12, 12)]] ∧
    dget (_data_handler
        ⟨["dev1.feeds.therm"],
         [("dev1.feeds.therm", [[("ch1", 0, 10)], [("ch1", 5, 11)]])],
         [("dev1.feeds.therm", 0)], true, some [], [], [], []⟩
        (.point [("ch1", 12, 12)]) ⟨"dev1.feeds.therm", false, 10⟩
        12).1.buffer_start_times "dev1.feeds.therm" = some 12 := by
  have h := (C2_buffer_flush_threshold
      ⟨["dev1.feeds.therm"],
       [("dev1.feeds.therm", [[("ch1", 0, 10)], [("ch1", 5, 11)]])],
       [("dev1.feeds.therm", 0)], true, some [], [], [], []⟩
      [("ch1", 12, 12)] ⟨"dev1.feeds.therm", false, 10⟩ 12 0
      [[("ch1", 0, 10)], [("ch1", 5, 11)]] [] "dev1" "therm"
      rfl rfl (by decide) rfl (by decide)).2.1
      (by decide) (by decide) (by decide)
  rw [h]
  refine ⟨by decide, by decide, by decide⟩

/-! ### Claim C3: self-buffered passthrough -/

/-- C3: a delivery on a feed marked `buffered` while aggregating is
serialized immediately into exactly one frame; the engine's per-feed
buffer dict and buffer start-time dict are returned untouched, and the
result does not depend on `buffer_time`. -/
theorem C3_selfbuffered_passthrough (st : AggState) (b : List DataPoint)
    (m : FeedMeta) (now : ℤ) (fs : List OutFrame) (x y : String)
    (hagg : st.aggregate = true) (hb : m.buffered = true)
    (hfile : st.file = some fs) (hsplit : splitFeeds m.address = [x, y]) :
    _data_handler st (.batch b) m now =
      ({ st with
         writes := st.writes ++ [(m.address, b)],
         file := some (fs ++ [.hk (mkRecord m.address b)]) }, none) := by
  rw [handler_batch st b m now hagg hb]
  simp only [write_frame_to_file, hsplit, hfile]

/-- C3 witness: a concrete self-buffered batch is written straight to a
frame with buffers and start times untouched, for an arbitrary (here
negative) `buffer_time`. -/
theorem C3_selfbuffered_passthrough_witness :
    _data_handler
        ⟨["lake.feeds.temps"], [("other.feeds.x", [[("c", 1, 1)]])],
         [("other.feeds.x", 0)], true, some [], [], [], []⟩
        (.batch [[("t1", 3, 7)], [("t1", 4, 8)]])
        ⟨"lake.feeds.temps", true, -5⟩ 9 =
      (⟨["lake.feeds.temps"], [("other.feeds.x", [[("c", 1, 1)]])],
        [("other.feeds.x", 0)], true,
        some [.hk (mkRecord "lake.feeds.temps" [[("t1", 3, 7)], [("t1", 4, 8)]])],
        [], [("lake.feeds.temps", [[("t1", 3, 7)], [("t1", 4, 8)]])], []⟩,
       none) := by
  have h := C3_selfbuffered_passthrough
      ⟨["lake.feeds.temps"], [("other.feeds.x", [[("c", 1, 1)]])],
       [("other.feeds.x", 0)], true, some [], [], [], []⟩
      [[("t1", 3, 7)], [("t1", 4, 8)]] ⟨"lake.feeds.temps", true, -5⟩ 9
      [] "lake" "temps" rfl rfl rfl (by decide)
  rw [h]
  decide

/-! ### Claim C6: idempotent subscription -/

/-- C6: subscribing the same feed address a second time is a no-op: the
first `add_feed` task call registers the feed (driver registration,
subscription list, buffer entry) and reports success; the second call
returns the very same state (no second driver registration, no list or
buffer change) with the non-fatal "Already subscribed" result; exactly
one subscription for the address remains. -/
theorem C6_idempotent_subscription (st : AggState) (aa fn : String)
    (hnew : mkFeedAddress aa fn ∉ st.subscribed_feeds) :
    add_feed_task st (some ⟨some aa, some fn⟩) =
      (add_feed st aa fn, .ok (true, "Subscribed to data feeds.")) ∧
    add_feed_task (add_feed st aa fn) (some ⟨some aa, some fn⟩) =
      (add_feed st aa fn,
       .ok (false, "Already subscribed to feed " ++ mkFeedAddress aa fn)) ∧
    (add_feed st aa fn).subscribed_feeds.count (mkFeedAddress aa fn) = 1 ∧
    (add_feed st aa fn).driver_subs = st.driver_subs ++ [(aa, fn)] ∧
    dget (add_feed st aa fn).buffers (mkFeedAddress aa fn) = some [] := by
  have hmem : mkFeedAddress aa fn ∈ (add_feed st aa fn).subscribed_feeds := by
    simp [add_feed, hnew]
  refine ⟨by simp [add_feed_task, hnew], by simp [add_feed_task, hmem], ?_, ?_, ?_⟩
  · have h0 : st.subscribed_feeds.count (mkFeedAddress aa fn) = 0 :=
      List.count_eq_zero.mpr hnew
    simp [add_feed, hnew, h0]
  · simp [add_feed, hnew]
  · simp [add_feed, hnew, dget_dset_self]

/-- C6 witness: subscribing `dev1.feeds.therm` twice from the fresh state
leaves one subscription, one driver registration, one (empty) buffer, and
the second call returns the informational "already subscribed" result. -/
theorem C6_idempotent_subscription_witness :
    add_feed_task (add_feed init_state "dev1" "therm")
        (some ⟨some "dev1", some "therm"⟩) =
      (add_feed init_state "dev1" "therm",
       .ok (false, "Already subscribed to feed dev1.feeds.therm")) ∧
    (add_feed init_state "dev1" "therm").subscribed_feeds.count
        "dev1.feeds.therm" = 1 := by
  have h := C6_idempotent_subscription init_state "dev1" "therm" (by decide)
  exact ⟨by rw [h.2.1]; rfl, by have := h.2.2.1; simpa using this⟩

/-! ### Claim C8: configuration errors rejected synchronously -/

/-- C8: a subscribe call with a missing required parameter
(`agent_address` or `feed_name`) fails synchronously (the `KeyError` of
the parameter lookup) with the engine state returned exactly unchanged —
no subscription, buffer, or registration is created; the start operation
has no required parameters: with no parameters at all it falls back to
the documented defaults `(3600, 600, "data/")`. -/
theorem C8_config_errors_rejected (st : AggState) :
    add_feed_task st none = (st, .error (.keyError "agent_address")) ∧
    (∀ fn : Option String,
      add_feed_task st (some ⟨none, fn⟩) =
        (st, .error (.keyError "agent_address"))) ∧
    (∀ aa : String,
      add_feed_task st (some ⟨some aa, none⟩) =
        (st, .error (.keyError "feed_name"))) ∧
    start_params none = (60 * 60, 60 * 10, "data/") := by
  refine ⟨?_, ?_, ?_, ?_⟩
  · simp [add_feed_task]
  · intro fn
    simp [add_feed_task]
  · intro aa
    simp [add_feed_task]
  · simp [start_params]

/-! ### Handler shape and invariant-preservation lemmas -/

theorem handler_shape (st : AggState) (p : Payload) (m : FeedMeta) (now : ℤ) :
    ((_data_handler st p m now).1).subscribed_feeds = st.subscribed_feeds ∧
    ((_data_handler st p m now).1).aggregate = st.aggregate ∧
    ((_data_handler st p m now).1).driver_subs = st.driver_subs ∧
    ((_data_handler st p m now).1).closed_files = st.closed_files ∧
    (∀ a, (dget st.buffers a).isSome →
      (dget ((_data_handler st p m now).1).buffers a).isSome) := by
  simp only [_data_handler]
  split
  · simp
  · split
    · split
      · rename_i b
        rcases hwf : write_frame_to_file st m.address b with ⟨st', e⟩
        obtain ⟨h1, h2, h3, h4, h5, h6, h7⟩ := wftf_spec st m.address b st' e hwf
        simp [h1, h3, h4, h5, h7]
      · simp
    · split
      · simp
      · split
        · simp
        · rename_i p2 buf hbuf
          split
          · split <;> simp
          · rename_i t0 ht0
            split
            · rcases hwf : write_frame_to_file
                  (if buf = [] then
                    { st with buffer_start_times := dset st.buffer_start_times m.address now }
                  else st) m.address buf with ⟨st2, e⟩
              obtain ⟨h1, h2, h3, h4, h5, h6, h7⟩ := wftf_spec _ m.address buf st2 e hwf
              have hb2 : st2.buffers = st.buffers := by
                rw [h1]
                split <;> rfl
              have hsub2 : st2.subscribed_feeds = st.subscribed_feeds := by
                rw [h4]
                split <;> rfl
              have hagg2 : st2.aggregate = st.aggregate := by
                rw [h3]
                split <;> rfl
              have hdr2 : st2.driver_subs = st.driver_subs := by
                rw [h5]
                split <;> rfl
              have hcf2 : st2.closed_files = st.closed_files := by
                rw [h7]
                split <;> rfl
              rcases e with _ | e
              · simp only [hwf]
                refine ⟨by simp [hsub2], by simp [hagg2], by simp [hdr2],
                  by simp [hcf2], ?_⟩
                intro a ha
                simp only [dset_dset, hb2]
                exact dget_isSome_dset _ _ _ _ ha
              · simp [hwf, hsub2, hagg2, hdr2, hcf2, hb2]
            · refine ⟨by split <;> rfl, by split <;> rfl, by split <;> rfl,
                by split <;> rfl, ?_⟩
              intro a ha
              have : (if buf = [] then
                  { st with buffer_start_times := dset st.buffer_start_times m.address now }
                  else st).buffers = st.buffers := by
                split <;> rfl
              simp only [this]
              exact dget_isSome_dset _ _ _ _ ha

theorem end_file_loop_shape (L : List (String × List DataPoint)) (st : AggState) :
    ((end_file_loop st L).1).subscribed_feeds = st.subscribed_feeds ∧
    ((end_file_loop st L).1).aggregate = st.aggregate ∧
    ((end_file_loop st L).1).driver_subs = st.driver_subs ∧
    ((end_file_loop st L).1).buffer_start_times = st.buffer_start_times ∧
    (∀ a, (dget st.buffers a).isSome →
      (dget ((end_file_loop st L).1).buffers a).isSome) := by
  induction L generalizing st with
  | nil => simp [end_file_loop]
  | cons kv rest ih =>
      obtain ⟨k, v⟩ := kv
      by_cases hv : v = []
      · simpa [end_file_loop, hv] using ih st
      · simp only [end_file_loop, hv, if_false]
        rcases hwf : write_frame_to_file st k v with ⟨st', e⟩
        obtain ⟨h1, h2, h3, h4, h5, h6, h7⟩ := wftf_spec st k v st' e hwf
        rcases e with _ | e
        · obtain ⟨g1, g2, g3, g4, g5⟩ :=
            ih { st' with buffers := dset st'.buffers k [] }
          refine ⟨g1.trans h4, g2.trans h3, g3.trans h5, g4.trans h2, ?_⟩
          intro a ha
          refine g5 a ?_
          exact dget_isSome_dset _ _ _ _ (by rw [h1]; exact ha)
        · exact ⟨h4, h3, h5, h2, fun a ha => by rw [h1]; exact ha⟩

theorem end_file_shape (st : AggState) :
    ((end_file st).1).subscribed_feeds = st.subscribed_feeds ∧
    ((end_file st).1).aggregate = st.aggregate ∧
    ((end_file st).1).driver_subs = st.driver_subs ∧
    ((end_file st).1).buffer_start_times = st.buffer_start_times ∧
    (∀ a, (dget st.buffers a).isSome →
      (dget ((end_file st).1).buffers a).isSome) := by
  unfold end_file
  rcases hl : end_file_loop st st.buffers with ⟨st', e⟩
  obtain ⟨h1, h2, h3, h4, h5⟩ := end_file_loop_shape st.buffers st
  simp only [hl] at h1 h2 h3 h4 h5
  rcases e with _ | e
  · rcases hf : st'.file with _ | fs
    · refine ⟨by simp [hf, h1], by simp [hf, h2], by simp [hf, h3],
        by simp [hf, h4], ?_⟩
      intro a ha
      simpa [hf] using h5 a ha
    · refine ⟨by simp [hf, h1], by simp [hf, h2], by simp [hf, h3],
        by simp [hf, h4], ?_⟩
      intro a ha
      simpa [hf] using h5 a ha
  · exact ⟨h1, h2, h3, h4, h5⟩

theorem start_file_shape (st : AggState) :
    (start_file st).subscribed_feeds = st.subscribed_feeds ∧
    (start_file st).aggregate = st.aggregate ∧
    (start_file st).driver_subs = st.driver_subs ∧
    (start_file st).buffer_start_times = st.buffer_start_times ∧
    (start_file st).buffers = st.buffers := by
  simp [start_file]

theorem stepMid_shape (st : AggState) (e : MidEvent) :
    ((stepMid st e).1).subscribed_feeds = st.subscribed_feeds ∧
    ((stepMid st e).1).aggregate = st.aggregate ∧
    ((stepMid st e).1).driver_subs = st.driver_subs ∧
    (∀ a, (dget st.buffers a).isSome →
      (dget ((stepMid st e).1).buffers a).isSome) := by
  cases e with
  | deliver p m now =>
      obtain ⟨h1, h2, h3, h4, h5⟩ := handler_shape st p m now
      exact ⟨h1, h2, h3, h5⟩
  | rotate =>
      simp only [stepMid]
      rcases hf : st.file with _ | fs
      · simp [start_file]
      · rcases hl : end_file st with ⟨st', e⟩
        obtain ⟨h1, h2, h3, h4, h5⟩ := end_file_shape st
        simp only [hl] at h1 h2 h3 h4 h5
        rcases e with _ | e
        · refine ⟨by simp [start_file, h1], by simp [start_file, h2],
            by simp [start_file, h3], ?_⟩
          intro a ha
          simpa [start_file] using h5 a ha
        · exact ⟨h1, h2, h3, h5⟩

theorem stepMids_shape (mids : List MidEvent) (st : AggState) :
    ((stepMids st mids).1).subscribed_feeds = st.subscribed_feeds ∧
    ((stepMids st mids).1).aggregate = st.aggregate ∧
    ((stepMids st mids).1).driver_subs = st.driver_subs ∧
    (∀ a, (dget st.buffers a).isSome →
      (dget ((stepMids st mids).1).buffers a).isSome) := by
  induction mids generalizing st with
  | nil => simp [stepMids]
  | cons e rest ih =>
      obtain ⟨h1, h2, h3, h4⟩ := stepMid_shape st e
      rcases hs : stepMid st e with ⟨st', err⟩
      simp only [hs] at h1 h2 h3 h4
      obtain ⟨g1, g2, g3, g4⟩ := ih st'
      simp only [stepMids, hs]
      rcases hs2 : stepMids st' rest with ⟨st'', errs⟩
      simp only [hs2] at g1 g2 g3 g4
      exact ⟨by simp [g1, h1], by simp [g2, h2], by simp [g3, h3],
        fun a ha => by simpa using g4 a (h4 a ha)⟩

/-! ### Registry/buffer consistency helpers -/

theorem regInv_add_feed (st : AggState) (aa fn : String) (h : regInv st) :
    regInv (add_feed st aa fn) := by
  unfold add_feed
  by_cases hmem : mkFeedAddress aa fn ∈ st.subscribed_feeds
  · simpa [hmem] using h
  · simp only [hmem, if_false]
    intro a ha
    simp only [List.mem_append, List.mem_singleton] at ha
    rcases ha with ha | ha
    · exact dget_isSome_dset _ _ _ _ (h a ha)
    · subst ha
      simp [dget_dset_self]

theorem regInv_add_feed_task (st : AggState) (ps : Option AddFeedParams)
    (h : regInv st) : regInv (add_feed_task st ps).1 := by
  unfold add_feed_task
  rcases ps with _ | ⟨aa, fn⟩
  · simpa using h
  · rcases aa with _ | aa
    · simpa using h
    · rcases fn with _ | fn
      · simpa using h
      · by_cases hmem : mkFeedAddress aa fn ∈ st.subscribed_feeds
        · simpa [hmem] using h
        · simpa [hmem] using regInv_add_feed st aa fn h

theorem regInv_handler (st : AggState) (p : Payload) (m : FeedMeta) (now : ℤ)
    (h : regInv st) : regInv (_data_handler st p m now).1 := by
  obtain ⟨h1, h2, h3, h4, h5⟩ := handler_shape st p m now
  intro a ha
  rw [h1] at ha
  exact h5 a (h a ha)

theorem regInv_wftf (st : AggState) (x : String) (b : List DataPoint)
    (h : regInv st) : regInv (write_frame_to_file st x b).1 := by
  rcases hwf : write_frame_to_file st x b with ⟨st', e⟩
  obtain ⟨g1, g2, g3, g4, g5, g6, g7⟩ := wftf_spec st x b st' e hwf
  intro a ha
  simp only [g1, g4]
  simp only [g4] at ha
  exact h a ha

theorem regInv_end_file (st : AggState) (h : regInv st) :
    regInv (end_file st).1 := by
  obtain ⟨h1, h2, h3, h4, h5⟩ := end_file_shape st
  intro a ha
  rw [h1] at ha
  exact h5 a (h a ha)

theorem regInv_start_file (st : AggState) (h : regInv st) :
    regInv (start_file st) := by
  obtain ⟨h1, h2, h3, h4, h5⟩ := start_file_shape st
  intro a ha
  rw [h1] at ha
  rw [h5]
  exact h a ha

theorem regInv_start_agg_init (st : AggState) (h : regInv st) :
    regInv (start_agg_init st).1 := by
  have hT : regInv { st with aggregate := true } := h
  simp only [start_agg_init]
  split
  · split
    · rename_i heq
      have := regInv_end_file _ hT
      rw [heq] at this
      exact this
    · rename_i st2 heq
      have := regInv_end_file _ hT
      rw [heq] at this
      exact regInv_start_file st2 this
  · exact regInv_start_file _ hT

theorem regInv_stepMid (st : AggState) (e : MidEvent) (h : regInv st) :
    regInv (stepMid st e).1 := by
  obtain ⟨h1, h2, h3, h4⟩ := stepMid_shape st e
  intro a ha
  rw [h1] at ha
  exact h4 a (h a ha)

theorem regInv_stepMids (mids : List MidEvent) (st : AggState) (h : regInv st) :
    regInv (stepMids st mids).1 := by
  obtain ⟨h1, h2, h3, h4⟩ := stepMids_shape mids st
  intro a ha
  rw [h1] at ha
  exact h4 a (h a ha)

theorem regInv_runAgg (st : AggState) (mids : List MidEvent) (h : regInv st) :
    regInv (runAgg st mids).1 := by
  simp only [runAgg]
  split
  · rename_i st1 e1 hi
    have := regInv_start_agg_init st h
    rw [hi] at this
    exact this
  · rename_i st1 hi
    have h1 : regInv st1 := by
      have := regInv_start_agg_init st h
      rwa [hi] at this
    have h2 : regInv (stop_aggregate (stepMids st1 mids).1).1 :=
      regInv_stepMids mids st1 h1
    split
    · rename_i st4 e4 he
      have := regInv_end_file (stop_aggregate (stepMids st1 mids).1).1 h2
      rwa [he] at this
    · rename_i st4 he
      have := regInv_end_file (stop_aggregate (stepMids st1 mids).1).1 h2
      rwa [he] at this

/-! ### Claim C10: registry/buffer consistency invariant -/

/-- C10: every feed address in the subscription list has an entry in the
buffer dict: the invariant holds initially and is preserved by every
operation of the aggregator — subscription (which appends the address and
creates its empty buffer together), the data handler, serialization,
segment close and open, the start/stop commands, and whole runs. -/
theorem C10_registry_buffer_consistency :
    regInv init_state ∧
    (∀ st aa fn, regInv st → regInv (add_feed st aa fn)) ∧
    (∀ st ps, regInv st → regInv (add_feed_task st ps).1) ∧
    (∀ st p m now, regInv st → regInv (_data_handler st p m now).1) ∧
    (∀ st x b, regInv st → regInv (write_frame_to_file st x b).1) ∧
    (∀ st, regInv st → regInv (end_file st).1) ∧
    (∀ st, regInv st → regInv (start_file st)) ∧
    (∀ st, regInv st → regInv (start_agg_init st).1) ∧
    (∀ st, regInv st → regInv (stop_aggregate st).1) ∧
    (∀ st e, regInv st → regInv (stepMid st e).1) ∧
    (∀ st mids, regInv st → regInv (runAgg st mids).1) := by
  refine ⟨?_, regInv_add_feed, regInv_add_feed_task, regInv_handler,
    regInv_wftf, regInv_end_file, regInv_start_file, regInv_start_agg_init,
    fun st h => h, regInv_stepMid, fun st mids h => regInv_runAgg st mids h⟩
  intro a ha
  simp [init_state] at ha

/-- C10 witness: the invariant holds for the concrete state obtained by
subscribing a feed to the fresh aggregator and is preserved when a
delivery is handled on it. -/
theorem C10_registry_buffer_consistency_witness :
    regInv (add_feed init_state "dev1" "therm") ∧
    regInv (_data_handler (add_feed init_state "dev1" "therm")
      (.point [("ch1", 0, 10)]) ⟨"dev1.feeds.therm", false, 10⟩ 0).1 := by
  have h0 : regInv init_state := C10_registry_buffer_consistency.1
  have h1 : regInv (add_feed init_state "dev1" "therm") :=
    C10_registry_buffer_consistency.2.1 init_state "dev1" "therm" h0
  exact ⟨h1, C10_registry_buffer_consistency.2.2.2.1 _
    (.point [("ch1", 0, 10)]) ⟨"dev1.feeds.therm", false, 10⟩ 0 h1⟩

/-! ### Start-time invariant helpers -/

theorem wftf_no_keyError (st : AggState) (x : String) (b : List DataPoint)
    (k : String) : (write_frame_to_file st x b).2 ≠ some (.keyError k) := by
  simp only [write_frame_to_file]
  split
  · split <;> simp
  · simp

theorem end_file_loop_buffers_cases (L : List (String × List DataPoint))
    (st : AggState) (a : String) :
    dget ((end_file_loop st L).1).buffers a = dget st.buffers a ∨
    dget ((end_file_loop st L).1).buffers a = some [] := by
  induction L generalizing st with
  | nil =>
      left
      simp [end_file_loop]
  | cons kv rest ih =>
      obtain ⟨k, v⟩ := kv
      by_cases hv : v = []
      · simpa [end_file_loop, hv] using ih st
      · simp only [end_file_loop, hv, if_false]
        rcases hwf : write_frame_to_file st k v with ⟨st', e⟩
        obtain ⟨h1, -, -, -, -, -, -⟩ := wftf_spec st k v st' e hwf
        rcases e with _ | e
        · rcases ih { st' with buffers := dset st'.buffers k [] } with hc | hc
          · by_cases hak : k = a
            · subst hak
              right
              rw [hc]
              exact dget_dset_self _ _ _
            · left
              rw [hc]
              show dget (dset st'.buffers k []) a = _
              rw [dget_dset_ne _ _ _ _ hak, h1]
          · right
            exact hc
        · left
          rw [h1]

theorem sti_add_feed (st : AggState) (aa fn : String) (h : startTimeInv st) :
    startTimeInv (add_feed st aa fn) := by
  unfold add_feed
  by_cases hmem : mkFeedAddress aa fn ∈ st.subscribed_feeds
  · simpa [hmem] using h
  · simp only [hmem, if_false]
    intro a bb hbb hne
    by_cases ha : mkFeedAddress aa fn = a
    · subst ha
      rw [dget_dset_self] at hbb
      cases hbb
      exact absurd rfl hne
    · rw [dget_dset_ne _ _ _ _ ha] at hbb
      exact h a bb hbb hne

theorem sti_handler (st : AggState) (p : Payload) (m : FeedMeta) (now : ℤ)
    (h : startTimeInv st) : startTimeInv (_data_handler st p m now).1 := by
  simp only [_data_handler]
  split
  · exact h
  · split
    · split
      · rename_i b
        rcases hwf : write_frame_to_file st m.address b with ⟨st', e⟩
        obtain ⟨h1, h2, -, -, -, -, -⟩ := wftf_spec st m.address b st' e hwf
        intro a bb hbb hne
        rw [h2]
        rw [h1] at hbb
        exact h a bb hbb hne
      · exact h
    · split
      · exact h
      · rename_i q
        split
        · exact h
        · rename_i _x buf hbuf
          have hst1 : startTimeInv (if buf = [] then
              { st with buffer_start_times := dset st.buffer_start_times m.address now }
              else st) := by
            split
            · intro a bb hbb hne
              by_cases ha : m.address = a
              · subst ha
                simp [dget_dset_self]
              · rw [dget_dset_ne _ _ _ _ ha]
                exact h a bb hbb hne
            · exact h
          split
          · exact hst1
          · rename_i t0 ht0
            split
            · rcases hwf : write_frame_to_file (if buf = [] then
                  { st with buffer_start_times := dset st.buffer_start_times m.address now }
                  else st) m.address buf with ⟨st2, e⟩
              obtain ⟨g1, g2, -, -, -, -, -⟩ := wftf_spec _ m.address buf st2 e hwf
              rcases e with _ | e
              · intro a bb hbb hne
                show (dget (dset st2.buffer_start_times m.address now) a).isSome
                by_cases ha : m.address = a
                · subst ha
                  simp [dget_dset_self]
                · rw [dget_dset_ne _ _ _ _ ha]
                  change dget (dset (dset st2.buffers m.address []) m.address [q]) a
                      = some bb at hbb
                  rw [dset_dset, dget_dset_ne _ _ _ _ ha, g1] at hbb
                  rw [g2]
                  exact hst1 a bb hbb hne
              · intro a bb hbb hne
                rw [g2]
                rw [g1] at hbb
                exact hst1 a bb hbb hne
            · intro a bb hbb hne
              by_cases ha : m.address = a
              · subst ha
                simp [ht0]
              · change dget (dset _ m.address (buf ++ [q])) a = some bb at hbb
                rw [dget_dset_ne _ _ _ _ ha] at hbb
                exact hst1 a bb hbb hne

theorem sti_end_file (st : AggState) (h : startTimeInv st) :
    startTimeInv (end_file st).1 := by
  unfold end_file
  rcases hl : end_file_loop st st.buffers with ⟨st', e⟩
  have hcases := fun a => end_file_loop_buffers_cases st.buffers st a
  simp only [hl] at hcases
  obtain ⟨-, -, -, h4, -⟩ := end_file_loop_shape st.buffers st
  simp only [hl] at h4
  have hsti2 : startTimeInv st' := by
    intro a bb hbb hne
    rw [h4]
    rcases hcases a with hc | hc
    · rw [hc] at hbb
      exact h a bb hbb hne
    · rw [hc] at hbb
      cases hbb
      exact absurd rfl hne
  rcases e with _ | e
  · rcases hf : st'.file with _ | fs
    · simpa [hf] using hsti2
    · simp only [hf]
      intro a bb hbb hne
      exact hsti2 a bb hbb hne
  · exact hsti2

theorem sti_start_file (st : AggState) (h : startTimeInv st) :
    startTimeInv (start_file st) := h

theorem sti_start_agg_init (st : AggState) (h : startTimeInv st) :
    startTimeInv (start_agg_init st).1 := by
  have hT : startTimeInv { st with aggregate := true } := h
  simp only [start_agg_init]
  split
  · split
    · rename_i heq
      have := sti_end_file _ hT
      rw [heq] at this
      exact this
    · rename_i st2 heq
      have := sti_end_file _ hT
      rw [heq] at this
      exact sti_start_file st2 this
  · exact sti_start_file _ hT

theorem handler_point_no_keyError (st : AggState) (q : DataPoint) (m : FeedMeta)
    (now : ℤ) (buf : List DataPoint)
    (hagg : st.aggregate = true) (hb : m.buffered = false)
    (hbuf : dget st.buffers m.address = some buf) (hsti : startTimeInv st)
    (k : String) :
    (_data_handler st (.point q) m now).2 ≠ some (.keyError k) := by
  have han : ¬ st.aggregate = false := by simp [hagg]
  have hsome : (dget (if buf = [] then
      { st with buffer_start_times := dset st.buffer_start_times m.address now }
      else st).buffer_start_times m.address).isSome := by
    split
    · simp [dget_dset_self]
    · rename_i hne
      exact hsti m.address buf hbuf hne
  simp only [_data_handler, if_neg han, hb, hbuf]
  simp only [Bool.false_eq_true, if_false]
  rcases hts : dget (if buf = [] then
      { st with buffer_start_times := dset st.buffer_start_times m.address now }
      else st).buffer_start_times m.address with _ | t0
  · rw [hts] at hsome
    simp at hsome
  · simp only [hts]
    split
    · rcases hwf : write_frame_to_file (if buf = [] then
          { st with buffer_start_times := dset st.buffer_start_times m.address now }
          else st) m.address buf with ⟨st2, e⟩
      have hk := wftf_no_keyError (if buf = [] then
          { st with buffer_start_times := dset st.buffer_start_times m.address now }
          else st) m.address buf k
      rw [hwf] at hk
      rcases e with _ | e
      · simp [hwf]
      · simpa [hwf] using hk
    · simp

/-! ### Claim C9: data handler lookup safety -/

/-- C9: while aggregating, an engine-buffered delivery whose feed address
has a buffer entry never hits a `KeyError` — the buffer lookup succeeds by
hypothesis and the start-time lookup succeeds because every operation
(from the fresh state onward) maintains the invariant that a non-empty
buffer has a recorded start time, while an empty buffer has its start
time written before the start-time lookup; a delivery whose address has
no buffer entry raises `KeyError` with the state unchanged — the sample
is neither dropped silently nor buffered. -/
theorem C9_handler_lookup_safety :
    (∀ st (p : DataPoint) m (now : ℤ) buf, st.aggregate = true →
      m.buffered = false → dget st.buffers m.address = some buf →
      startTimeInv st →
      ∀ k, (_data_handler st (.point p) m now).2 ≠ some (.keyError k)) ∧
    (∀ st (p : DataPoint) m (now : ℤ), st.aggregate = true →
      m.buffered = false → dget st.buffers m.address = none →
      _data_handler st (.point p) m now = (st, some (.keyError m.address))) ∧
    startTimeInv init_state ∧
    (∀ st aa fn, startTimeInv st → startTimeInv (add_feed st aa fn)) ∧
    (∀ st p m now, startTimeInv st → startTimeInv (_data_handler st p m now).1) ∧
    (∀ st, startTimeInv st → startTimeInv (end_file st).1) ∧
    (∀ st, startTimeInv st → startTimeInv (start_file st)) ∧
    (∀ st, startTimeInv st → startTimeInv (start_agg_init st).1) ∧
    (∀ st, startTimeInv st → startTimeInv (stop_aggregate st).1) := by
  refine ⟨?_, handler_nokey, ?_, sti_add_feed, sti_handler, sti_end_file,
    sti_start_file, sti_start_agg_init, fun st h => h⟩
  · intro st p m now buf hagg hb hbuf hsti k
    exact handler_point_no_keyError st p m now buf hagg hb hbuf hsti k
  · intro a bb hbb
    simp [init_state, dget] at hbb

/-- C9 witness: on a concrete aggregating state, a delivery to the
subscribed address raises no `KeyError`, and a delivery to an unknown
address raises exactly `KeyError` of that address with the state
unchanged. -/
theorem C9_handler_lookup_safety_witness :
    (∀ k, (_data_handler
        ⟨["a.feeds.b"], [("a.feeds.b", [[("c", 0, 1)]])], [("a.feeds.b", 0)],
         true, some [], [], [], []⟩
        (.point [("c", 7, 2)]) ⟨"a.feeds.b", false, 100⟩ 7).2 ≠
      some (.keyError k)) ∧
    _data_handler
        ⟨["a.feeds.b"], [("a.feeds.b", [])], [], true, some [], [], [], []⟩
        (.point [("c", 7, 2)]) ⟨"x.feeds.y", false, 100⟩ 7 =
      (⟨["a.feeds.b"], [("a.feeds.b", [])], [], true, some [], [], [], []⟩,
       some (.keyError "x.feeds.y")) := by
  constructor
  · exact C9_handler_lookup_safety.1
      ⟨["a.feeds.b"], [("a.feeds.b", [[("c", 0, 1)]])], [("a.feeds.b", 0)],
       true, some [], [], [], []⟩
      [("c", 7, 2)] ⟨"a.feeds.b", false, 100⟩ 7 [[("c", 0, 1)]]
      rfl rfl (by decide)
      (by
        intro a bb hbb hne
        simp only [dget] at hbb ⊢
        split at hbb
        · rename_i ha
          rw [if_pos ha]
          rfl
        · cases hbb)
  · exact C9_handler_lookup_safety.2.1
      ⟨["a.feeds.b"], [("a.feeds.b", [])], [], true, some [], [], [], []⟩
      [("c", 7, 2)] ⟨"x.feeds.y", false, 100⟩ 7 rfl rfl (by decide)

/-! ### Serialization-failure retention helpers -/

theorem dget_of_mem_nodup {β : Type} (d : List (String × β)) (k : String) (w : β)
    (hnd : NodupKeys d) (hmem : (k, w) ∈ d) : dget d k = some w := by
  induction d with
  | nil => simp at hmem
  | cons p rest ih =>
      obtain ⟨k', v'⟩ := p
      unfold NodupKeys at hnd
      simp only [List.map_cons, List.nodup_cons] at hnd
      rcases List.mem_cons.mp hmem with h | h
      · obtain ⟨rfl, rfl⟩ := Prod.mk.injEq .. ▸ h
        simp [dget]
      · have hk : k' ≠ k := by
          intro hkk
          subst hkk
          exact hnd.1 (List.mem_map.mpr ⟨(k', w), h, rfl⟩)
        simp only [dget, hk, if_false]
        exact ih hnd.2 h

theorem end_file_loop_writes_mono (L : List (String × List DataPoint))
    (st : AggState) (w : String × List DataPoint) (hw : w ∈ st.writes) :
    w ∈ ((end_file_loop st L).1).writes := by
  induction L generalizing st with
  | nil => simpa [end_file_loop] using hw
  | cons kv rest ih =>
      obtain ⟨k, v⟩ := kv
      by_cases hv : v = []
      · simpa [end_file_loop, hv] using ih st hw
      · simp only [end_file_loop, hv, if_false]
        rcases hwf : write_frame_to_file st k v with ⟨st', e⟩
        obtain ⟨-, -, -, -, -, h6, -⟩ := wftf_spec st k v st' e hwf
        rcases e with _ | e
        · refine ih { st' with buffers := dset st'.buffers k [] } ?_
          show w ∈ st'.writes
          rw [h6]
          exact List.mem_append_left _ hw
        · show w ∈ st'.writes
          rw [h6]
          exact List.mem_append_left _ hw

theorem end_file_loop_retention (L : List (String × List DataPoint))
    (st : AggState) (a : String) (v : List DataPoint)
    (hnd : (L.map Prod.fst).Nodup)
    (hL : ∀ kw ∈ L, dget st.buffers kw.1 = some kw.2)
    (hv : dget st.buffers a = some v) :
    dget ((end_file_loop st L).1).buffers a = some v ∨
    (dget ((end_file_loop st L).1).buffers a = some [] ∧
      (a, v) ∈ ((end_file_loop st L).1).writes) := by
  induction L generalizing st with
  | nil =>
      left
      simpa [end_file_loop] using hv
  | cons kv rest ih =>
      obtain ⟨k, w⟩ := kv
      simp only [List.map_cons, List.nodup_cons] at hnd
      by_cases hw : w = []
      · simp only [end_file_loop, hw, if_pos rfl]
        exact ih st hnd.2 (fun kw hkw => hL kw (List.mem_cons_of_mem _ hkw)) hv
      · simp only [end_file_loop, hw, if_false]
        rcases hwf : write_frame_to_file st k w with ⟨st', e⟩
        obtain ⟨h1, -, -, -, -, h6, -⟩ := wftf_spec st k w st' e hwf
        rcases e with _ | e
        · have hLrest : ∀ kw ∈ rest,
              dget ({ st' with buffers := dset st'.buffers k [] } : AggState).buffers
                kw.1 = some kw.2 := by
            intro kw hkw
            have hkne : k ≠ kw.1 := by
              intro hkk
              exact hnd.1 (List.mem_map.mpr ⟨kw, hkw, hkk.symm⟩)
            show dget (dset st'.buffers k []) kw.1 = some kw.2
            rw [dget_dset_ne _ _ _ _ hkne, h1]
            exact hL kw (List.mem_cons_of_mem _ hkw)
          by_cases hak : k = a
          · subst hak
            right
            have hkv : w = v := by
              have := hL (k, w) (List.mem_cons_self _ _)
              rw [hv] at this
              exact (Option.some.injEq .. ▸ this.symm)
            subst hkv
            constructor
            · rcases end_file_loop_buffers_cases rest
                { st' with buffers := dset st'.buffers k [] } k with hc | hc
              · rw [hc]
                show dget (dset st'.buffers k []) k = some []
                exact dget_dset_self _ _ _
              · exact hc
            · refine end_file_loop_writes_mono rest _ (k, w) ?_
              show (k, w) ∈ st'.writes
              rw [h6]
              simp
          · refine ih { st' with buffers := dset st'.buffers k [] } hnd.2 hLrest ?_
            show dget (dset st'.buffers k []) a = some v
            rw [dget_dset_ne _ _ _ _ hak, h1]
            exact hv
        · left
          rw [h1]
          exact hv

/-! ### Claim C7: atomicity on serialization failure -/

/-- C7: when serialization raises, buffered samples are retained.  In the
per-sample handler, any raising outcome leaves the buffer dict exactly as
it was (the clear happens strictly after a successful write).  In
`end_file`, when the flush loop raises, every feed's buffer is either
still exactly its old value (in particular the failing feed's and all
later unprocessed feeds') or was already serialized — a cleared buffer
always has its serializer invocation on record. -/
theorem C7_serialization_failure_atomicity :
    (∀ st p m (now : ℤ) st' e, _data_handler st p m now = (st', some e) →
      st'.buffers = st.buffers) ∧
    (∀ st st' e, NodupKeys st.buffers → end_file st = (st', some e) →
      ∀ a v, dget st.buffers a = some v →
        dget st'.buffers a = some v ∨
        (dget st'.buffers a = some [] ∧ (a, v) ∈ st'.writes)) := by
  constructor
  · intro st p m now st' e h
    simp only [_data_handler] at h
    split at h
    · simp at h
    · split at h
      · split at h
        · rename_i b
          obtain ⟨h1, -, -, -, -, -, -⟩ := wftf_spec st m.address b st' (some e) h
          exact h1
        · obtain ⟨rfl, -⟩ := Prod.mk.injEq .. ▸ h
          rfl
      · split at h
        · obtain ⟨rfl, -⟩ := Prod.mk.injEq .. ▸ h
          rfl
        · split at h
          · obtain ⟨rfl, -⟩ := Prod.mk.injEq .. ▸ h
            rfl
          · split at h
            · obtain ⟨rfl, -⟩ := Prod.mk.injEq .. ▸ h
              split <;> rfl
            · split at h
              · split at h
                · rename_i stw ew hwf
                  obtain ⟨rfl, -⟩ := Prod.mk.injEq .. ▸ h
                  obtain ⟨g1, -, -, -, -, -, -⟩ := wftf_spec _ m.address _ _ _ hwf
                  rw [g1]
                  split <;> rfl
                · simp at h
              · simp at h
  · intro st st' e hnd hef a v hv
    have hret0 := end_file_loop_retention st.buffers st a v hnd
      (fun kw hkw => dget_of_mem_nodup st.buffers kw.1 kw.2 hnd hkw) hv
    unfold end_file at hef
    split at hef
    · rename_i stl el hl
      obtain ⟨rfl, -⟩ := Prod.mk.injEq .. ▸ hef
      rw [hl] at hret0
      exact hret0
    · rename_i stl hl
      rw [hl] at hret0
      split at hef
      · obtain ⟨rfl, -⟩ := Prod.mk.injEq .. ▸ hef
        exact hret0
      · simp at hef

/-- C7 witness: with no file open, the threshold flush raises; the
handler's resulting state still holds the two buffered samples, and a
failing `end_file` (here failing on a malformed feed address) likewise
retains the unflushed buffer. -/
theorem C7_serialization_failure_atomicity_witness :
    ((⟨["a.feeds.b"], [("a.feeds.b", [[("c", 0, 1)], [("c", 1, 2)]])],
       [("a.feeds.b", 0)], true, none, [],
       [("a.feeds.b", [[("c", 0, 1)], [("c", 1, 2)]])], []⟩ : AggState)).buffers =
      (⟨["a.feeds.b"], [("a.feeds.b", [[("c", 0, 1)], [("c", 1, 2)]])],
        [("a.feeds.b", 0)], true, none, [], [], []⟩ : AggState).buffers ∧
    (dget (⟨["nodot"], [("nodot", [[("c", 0, 1)]])], [("nodot", 0)], false,
        none, [], [("nodot", [[("c", 0, 1)]])], []⟩ : AggState).buffers
        "nodot" = some [[("c", 0, 1)]] ∨
      (dget (⟨["nodot"], [("nodot", [[("c", 0, 1)]])], [("nodot", 0)], false,
          none, [], [("nodot", [[("c", 0, 1)]])], []⟩ : AggState).buffers
          "nodot" = some [] ∧
        ("nodot", [[("c", 0, 1)]]) ∈
          (⟨["nodot"], [("nodot", [[("c", 0, 1)]])], [("nodot", 0)], false,
            none, [], [("nodot", [[("c", 0, 1)]])], []⟩ : AggState).writes)) := by
  constructor
  · exact C7_serialization_failure_atomicity.1
      ⟨["a.feeds.b"], [("a.feeds.b", [[("c", 0, 1)], [("c", 1, 2)]])],
       [("a.feeds.b", 0)], true, none, [], [], []⟩
      (.point [("c", 9, 3)]) ⟨"a.feeds.b", false, 2⟩ 9
      ⟨["a.feeds.b"], [("a.feeds.b", [[("c", 0, 1)], [("c", 1, 2)]])],
       [("a.feeds.b", 0)], true, none, [],
       [("a.feeds.b", [[("c", 0, 1)], [("c", 1, 2)]])], []⟩
      .typeError (by decide)
  · exact C7_serialization_failure_atomicity.2
      ⟨["nodot"], [("nodot", [[("c", 0, 1)]])], [("nodot", 0)], false,
       none, [], [], []⟩
      ⟨["nodot"], [("nodot", [[("c", 0, 1)]])], [("nodot", 0)], false,
       none, [], [("nodot", [[("c", 0, 1)]])], []⟩
      .valueError (by unfold NodupKeys; decide) (by decide)
      "nodot" [[("c", 0, 1)]] (by decide)

/-! ### Non-empty serializer-argument helpers -/

theorem wne_wftf (st : AggState) (x : String) (b : List DataPoint)
    (h : ∀ w ∈ st.writes, w.2 ≠ ([] : List DataPoint)) (hb : b ≠ []) :
    ∀ w ∈ ((write_frame_to_file st x b).1).writes, w.2 ≠ [] := by
  rcases hwf : write_frame_to_file st x b with ⟨st', e⟩
  obtain ⟨-, -, -, -, -, h6, -⟩ := wftf_spec st x b st' e hwf
  intro w hw
  simp only [h6] at hw
  rcases List.mem_append.mp hw with hold | hnew
  · exact h w hold
  · simp only [List.mem_singleton] at hnew
    subst hnew
    exact hb

theorem wne_end_file_loop (L : List (String × List DataPoint)) (st : AggState)
    (h : ∀ w ∈ st.writes, w.2 ≠ ([] : List DataPoint)) :
    ∀ w ∈ ((end_file_loop st L).1).writes, w.2 ≠ [] := by
  induction L generalizing st with
  | nil => simpa [end_file_loop] using h
  | cons kv rest ih =>
      obtain ⟨k, v⟩ := kv
      by_cases hv : v = []
      · simpa [end_file_loop, hv] using ih st h
      · simp only [end_file_loop, hv, if_false]
        rcases hwf : write_frame_to_file st k v with ⟨st', e⟩
        have hst' : ∀ w ∈ st'.writes, w.2 ≠ ([] : List DataPoint) := by
          have := wne_wftf st k v h hv
          rw [hwf] at this
          exact this
        rcases e with _ | e
        · exact ih { st' with buffers := dset st'.buffers k [] } hst'
        · exact hst'

theorem wne_end_file (st : AggState)
    (h : ∀ w ∈ st.writes, w.2 ≠ ([] : List DataPoint)) :
    ∀ w ∈ ((end_file st).1).writes, w.2 ≠ [] := by
  unfold end_file
  split
  · rename_i stl el hl
    have := wne_end_file_loop st.buffers st h
    rw [hl] at this
    exact this
  · rename_i stl hl
    have hstl : ∀ w ∈ stl.writes, w.2 ≠ ([] : List DataPoint) := by
      have := wne_end_file_loop st.buffers st h
      rw [hl] at this
      exact this
    split
    · exact hstl
    · exact hstl

theorem wne_handler (st : AggState) (p : Payload) (m : FeedMeta) (now : ℤ)
    (h : ∀ w ∈ st.writes, w.2 ≠ ([] : List DataPoint))
    (hT : 0 ≤ m.buffer_time)
    (hB : ∀ b, p = .batch b → b ≠ []) :
    ∀ w ∈ ((_data_handler st p m now).1).writes, w.2 ≠ [] := by
  simp only [_data_handler]
  split
  · exact h
  · split
    · split
      · rename_i b
        exact wne_wftf st m.address b h (hB b rfl)
      · exact h
    · split
      · exact h
      · rename_i q
        split
        · exact h
        · rename_i _x buf hbuf
          have hw1 : (if buf = [] then
              { st with buffer_start_times := dset st.buffer_start_times m.address now }
              else st).writes = st.writes := by
            split <;> rfl
          split
          · intro w hw
            rw [hw1] at hw
            exact h w hw
          · rename_i t0 ht0
            split
            · rename_i hcond
              by_cases hbe : buf = []
              · exfalso
                simp only [if_pos hbe] at ht0
                rw [dget_dset_self] at ht0
                have hteq : now = t0 := Option.some.inj ht0
                subst hteq
                omega
              · have hne : ∀ w ∈ ((write_frame_to_file (if buf = [] then
                    { st with buffer_start_times := dset st.buffer_start_times m.address now }
                    else st) m.address buf).1).writes, w.2 ≠ ([] : List DataPoint) := by
                  refine wne_wftf _ m.address buf ?_ hbe
                  rw [hw1]
                  exact h
                split
                · rename_i stw ew hwf
                  rw [hwf] at hne
                  exact hne
                · rename_i stw hwf
                  rw [hwf] at hne
                  intro w hw
                  exact hne w hw
            · intro w hw
              rw [hw1] at hw
              exact h w hw

theorem wne_start_agg_init (st : AggState)
    (h : ∀ w ∈ st.writes, w.2 ≠ ([] : List DataPoint)) :
    ∀ w ∈ ((start_agg_init st).1).writes, w.2 ≠ [] := by
  have hT : ∀ w ∈ ({ st with aggregate := true } : AggState).writes,
      w.2 ≠ ([] : List DataPoint) := h
  simp only [start_agg_init]
  split
  · split
    · rename_i heq
      have := wne_end_file _ hT
      rw [heq] at this
      exact this
    · rename_i st2 heq
      have := wne_end_file _ hT
      rw [heq] at this
      exact this
  · exact hT

theorem wne_stepMid (st : AggState) (e : MidEvent)
    (h : ∀ w ∈ st.writes, w.2 ≠ ([] : List DataPoint))
    (he : ∀ p m (t : ℤ), e = MidEvent.deliver p m t →
      0 ≤ m.buffer_time ∧ ∀ b, p = .batch b → b ≠ []) :
    ∀ w ∈ ((stepMid st e).1).writes, w.2 ≠ [] := by
  cases e with
  | deliver p m t =>
      obtain ⟨hT, hB⟩ := he p m t rfl
      exact wne_handler st p m t h hT hB
  | rotate =>
      simp only [stepMid]
      split
      · split
        · rename_i heq
          have := wne_end_file st h
          rw [heq] at this
          exact this
        · rename_i st2 heq
          have := wne_end_file st h
          rw [heq] at this
          exact this
      · exact h

theorem wne_stepMids (mids : List MidEvent) (st : AggState)
    (h : ∀ w ∈ st.writes, w.2 ≠ ([] : List DataPoint))
    (he : ∀ p m (t : ℤ), MidEvent.deliver p m t ∈ mids →
      0 ≤ m.buffer_time ∧ ∀ b, p = .batch b → b ≠ []) :
    ∀ w ∈ ((stepMids st mids).1).writes, w.2 ≠ [] := by
  induction mids generalizing st with
  | nil => simpa [stepMids] using h
  | cons e rest ih =>
      have h1 := wne_stepMid st e h
        (fun p m t hpmt => he p m t (by rw [hpmt]; exact List.mem_cons_self _ _))
      rcases hs : stepMid st e with ⟨st', err⟩
      rw [hs] at h1
      have h2 := ih st' h1
        (fun p m t hpmt => he p m t (List.mem_cons_of_mem _ hpmt))
      simp only [stepMids, hs]
      rcases hs2 : stepMids st' rest with ⟨st'', errs⟩
      rw [hs2] at h2
      exact h2

/-! ### Claim C4: serializer never invoked with an empty sample list -/

/-- C4 counterexample: the claim fails as stated — a feed whose metadata
carries a negative `buffer_time` delivers into an empty buffer; the
start time is set to `now`, the elapsed time `0` strictly exceeds the
negative window, and the handler's threshold flush hands the Frame
Serializer the empty buffer (one logged invocation with `[]`). -/
theorem C4_counterexample :
    ((_data_handler
        ⟨["a.feeds.b"], [("a.feeds.b", [])], [], true, some [], [], [], []⟩
        (.point [("c", 0, 1)]) ⟨"a.feeds.b", false, -1⟩ 0).1).writes =
      [("a.feeds.b", [])] := by
  decide

/-- C4 (amended): in any run in which every delivered feed metadata has
a non-negative `buffer_time` and every self-buffered batch is non-empty,
the Frame Serializer is never invoked with an empty sample list: every
logged invocation of the run carries a non-empty buffer (the handler's
threshold flush cannot fire on an empty buffer when the window is
non-negative, and the end-of-segment flush skips empty buffers). -/
theorem C4_no_empty_serializer_argument (st0 : AggState) (mids : List MidEvent)
    (hw0 : st0.writes = [])
    (he : ∀ p m (t : ℤ), MidEvent.deliver p m t ∈ mids →
      0 ≤ m.buffer_time ∧ ∀ b, p = .batch b → b ≠ []) :
    ∀ w ∈ ((runAgg st0 mids).1).writes, w.2 ≠ [] := by
  have h0 : ∀ w ∈ st0.writes, w.2 ≠ ([] : List DataPoint) := by
    rw [hw0]
    intro w hw
    simp at hw
  simp only [runAgg]
  split
  · rename_i st1 e1 hi
    have := wne_start_agg_init st0 h0
    rw [hi] at this
    exact this
  · rename_i st1 hi
    have h1 : ∀ w ∈ st1.writes, w.2 ≠ ([] : List DataPoint) := by
      have := wne_start_agg_init st0 h0
      rw [hi] at this
      exact this
    have h2 : ∀ w ∈ ((stepMids st1 mids).1).writes, w.2 ≠ ([] : List DataPoint) :=
      wne_stepMids mids st1 h1 he
    have h3 : ∀ w ∈ ((end_file (stop_aggregate (stepMids st1 mids).1).1).1).writes,
        w.2 ≠ ([] : List DataPoint) :=
      wne_end_file _ h2
    split
    · rename_i st4 e4 he4
      rw [he4] at h3
      exact h3
    · rename_i st4 he4
      rw [he4] at h3
      exact h3

/-- C4 amended-claim witness: in a concrete run (threshold flush,
rotation flush, final flush) the theorem yields, for the run's first
logged serializer invocation, that its sample list is non-empty. -/
theorem C4_no_empty_serializer_argument_witness :
    (("dev1.feeds.therm", [[("ch1", 0, 10)]]) : String × List DataPoint).2 ≠ [] := by
  refine C4_no_empty_serializer_argument (add_feed init_state "dev1" "therm")
    [.deliver (.point [("ch1", 0, 10)]) ⟨"dev1.feeds.therm", false, 2⟩ 0,
     .deliver (.point [("ch1", 3, 11)]) ⟨"dev1.feeds.therm", false, 2⟩ 3,
     .rotate,
     .deliver (.point [("ch1", 4, 12)]) ⟨"dev1.feeds.therm", false, 2⟩ 4]
    (by decide) ?_ ("dev1.feeds.therm", [[("ch1", 0, 10)]]) (by decide)
  intro p m t hmem
  simp only [List.mem_cons, List.mem_singleton] at hmem
  rcases hmem with h | h | h | h
  · injection h with hp hm ht
    subst hp
    subst hm
    exact ⟨by decide, by intro b hb; simp at hb⟩
  · injection h with hp hm ht
    subst hp
    subst hm
    exact ⟨by decide, by intro b hb; simp at hb⟩
  · exact absurd h (by simp)
  · rcases h with h | h
    · injection h with hp hm ht
      subst hp
      subst hm
      exact ⟨by decide, by intro b hb; simp at hb⟩
    · simp at h

/-! ### Frame construction lemmas -/

theorem extendCol_nil (o : Option (List ℤ)) : extendCol o [] = o := by
  rcases o with _ | l0 <;> simp [extendCol]

theorem extendCol_append (o : Option (List ℤ)) (l1 l2 : List ℤ) :
    extendCol (extendCol o l1) l2 = extendCol o (l1 ++ l2) := by
  rcases o with _ | l0
  · by_cases h1 : l1 = []
    · subst h1
      simp [extendCol]
    · by_cases h2 : l2 = []
      · subst h2
        simp [extendCol, h1]
      · simp [extendCol, h1, h2]
  · simp [extendCol]

theorem dget_dappend_self (d : List (String × List ℤ)) (k : String) (x : ℤ) :
    dget (dappend d k x) k = extendCol (dget d k) [x] := by
  unfold dappend
  rcases h : dget d k with _ | l0
  · simp [extendCol, dget_dset_self]
  · simp [extendCol, dget_dset_self]

theorem dget_dappend_ne (d : List (String × List ℤ)) (x k : String) (v : ℤ)
    (h : x ≠ k) : dget (dappend d x v) k = dget d k := by
  unfold dappend
  rcases h2 : dget d x with _ | l0 <;> exact dget_dset_ne _ _ _ _ h

theorem dget_point_fold (sel : ℤ × ℤ → ℤ) (k : String) (dp : DataPoint) :
    ∀ d, dget (dp.foldl (fun d e => dappend d e.1 (sel e.2)) d) k =
      extendCol (dget d k)
        ((dp.filter (fun e => e.1 = k)).map (fun e => sel e.2)) := by
  induction dp with
  | nil =>
      intro d
      simp [extendCol_nil]
  | cons e es ih =>
      intro d
      by_cases he : e.1 = k
      · simp only [List.foldl_cons, ih, List.filter_cons, he, decide_True,
          if_true, List.map_cons]
        rw [dget_dappend_self, extendCol_append]
        simp
      · simp only [List.foldl_cons, ih, List.filter_cons, he, decide_False,
          Bool.false_eq_true, if_false]
        rw [dget_dappend_ne _ _ _ _ he]

theorem dget_buildDict_fold (sel : ℤ × ℤ → ℤ) (k : String)
    (buffer : List DataPoint) :
    ∀ d, dget (buffer.foldl
        (fun d dp => dp.foldl (fun d e => dappend d e.1 (sel e.2)) d) d) k =
      extendCol (dget d k) ((perKey k buffer).map (fun e => sel e)) := by
  induction buffer with
  | nil =>
      intro d
      simp [perKey, extendCol_nil]
  | cons dp rest ih =>
      intro d
      simp only [List.foldl_cons, ih, dget_point_fold, extendCol_append]
      congr 1
      simp [perKey, List.map_map, Function.comp]

theorem dget_buildDict (sel : ℤ × ℤ → ℤ) (k : String)
    (buffer : List DataPoint) :
    dget (buildDict sel buffer) k =
      (if perKey k buffer = [] then none
       else some ((perKey k buffer).map (fun e => sel e))) := by
  unfold buildDict
  rw [dget_buildDict_fold]
  simp only [dget, extendCol]
  by_cases h : perKey k buffer = []
  · simp [h]
  · simp [h]

/-! ### Feed-address split lemmas -/

theorem split_cons_sep (rest : List Char) :
    splitFeedsChars ('.' :: 'f' :: 'e' :: 'e' :: 'd' :: 's' :: '.' :: rest) =
      [] :: splitFeedsChars rest := rfl

theorem split_cons_no (c : Char) (rest : List Char)
    (h : (c :: rest).take 7 ≠ ['.', 'f', 'e', 'e', 'd', 's', '.']) :
    splitFeedsChars (c :: rest) =
      (c :: (splitFeedsChars rest).headD []) :: (splitFeedsChars rest).tail := by
  rw [splitFeedsChars.eq_def]
  split
  · rename_i heq
    cases heq
  · rename_i rest2 heq
    exfalso
    refine h ?_
    rw [heq]
    rfl
  · rename_i c2 rest2 hne heq
    injection heq with h1 h2
    subst h1
    subst h2
    rfl

theorem split_compose (src name : List Char)
    (hsrc : splitFeedsChars (src ++ ['.', 'f', 'e', 'e', 'd', 's', '.']) =
      [src, []])
    (hname : splitFeedsChars name = [name]) :
    splitFeedsChars (src ++ ['.', 'f', 'e', 'e', 'd', 's', '.'] ++ name) =
      [src, name] := by
  induction src with
  | nil =>
      simp only [List.nil_append, List.cons_append]
      rw [split_cons_sep, hname]
  | cons c src' ih =>
      simp only [List.cons_append] at hsrc ⊢
      by_cases h7 : (c :: (src' ++ ['.', 'f', 'e', 'e', 'd', 's', '.'])).take 7 =
          ['.', 'f', 'e', 'e', 'd', 's', '.']
      · exfalso
        have hdec : c :: (src' ++ ['.', 'f', 'e', 'e', 'd', 's', '.']) =
            ['.', 'f', 'e', 'e', 'd', 's', '.'] ++
              (c :: (src' ++ ['.', 'f', 'e', 'e', 'd', 's', '.'])).drop 7 := by
          conv_lhs => rw [← List.take_append_drop 7
            (c :: (src' ++ ['.', 'f', 'e', 'e', 'd', 's', '.']))]
          rw [h7]
        rw [hdec] at hsrc
        simp only [List.cons_append, List.nil_append] at hsrc
        rw [split_cons_sep] at hsrc
        simp at hsrc
      · have hlen : 7 ≤ (c :: (src' ++ ['.', 'f', 'e', 'e', 'd', 's', '.'])).length := by
          simp
        have h7g : ((c :: (src' ++ ['.', 'f', 'e', 'e', 'd', 's', '.'])) ++ name).take 7 ≠
            ['.', 'f', 'e', 'e', 'd', 's', '.'] := by
          rw [List.take_append_of_le_length hlen]
          exact h7
        rw [split_cons_no c _ h7] at hsrc
        have hS : splitFeedsChars (src' ++ ['.', 'f', 'e', 'e', 'd', 's', '.']) =
            [src', []] := by
          rcases hsrc2 : splitFeedsChars (src' ++ ['.', 'f', 'e', 'e', 'd', 's', '.'])
            with _ | ⟨h0, t0⟩
          · rw [hsrc2] at hsrc
            simp at hsrc
          · rw [hsrc2] at hsrc
            simp only [List.headD_cons, List.tail_cons, List.cons.injEq] at hsrc
            obtain ⟨⟨-, rfl⟩, rfl⟩ := hsrc
            rfl
        have hgoal := split_cons_no c (src' ++ ['.', 'f', 'e', 'e', 'd', 's', '.'] ++ name)
          (by
            have : c :: (src' ++ ['.', 'f', 'e', 'e', 'd', 's', '.'] ++ name) =
                (c :: (src' ++ ['.', 'f', 'e', 'e', 'd', 's', '.'])) ++ name := by
              simp [List.cons_append]
            rw [this]
            exact h7g)
        rw [hgoal, ih hS]
        rfl

theorem splitFeeds_mkFeedAddress (src name : String)
    (hsrc : splitFeedsChars (src.toList ++ ['.', 'f', 'e', 'e', 'd', 's', '.']) =
      [src.toList, []])
    (hname : splitFeedsChars name.toList = [name.toList]) :
    splitFeeds (mkFeedAddress src name) = [src, name] := by
  unfold splitFeeds mkFeedAddress
  have htl : (src ++ ".feeds." ++ name).toList =
      src.toList ++ ['.', 'f', 'e', 'e', 'd', 's', '.'] ++ name.toList := by
    show ((src ++ ".feeds." ++ name).data) = _
    simp only [String.data_append]
    rfl
  rw [htl, split_compose src.toList name.toList hsrc hname]
  rfl

/-! ### Claim C5: frame serialization correctness -/

/-- C5: serializing a sample list for a well-formed feed address (source
id with no embedded `".feeds."` run-in, feed name containing no
`".feeds."`) appends exactly one housekeeping record to the open file,
tagged with the feed's source id and feed name; for every key, the
record's values column and timestamps column are the per-key samples'
readings and timestamps, in original per-key arrival order (no
re-sorting), and the two columns have equal length; keys with no samples
are absent. -/
theorem C5_frame_serialization (src name : String) (samples : List DataPoint)
    (st : AggState) (fs : List OutFrame)
    (hsrc : splitFeedsChars (src.toList ++ ['.', 'f', 'e', 'e', 'd', 's', '.']) =
      [src.toList, []])
    (hname : splitFeedsChars name.toList = [name.toList])
    (hfile : st.file = some fs) :
    write_frame_to_file st (mkFeedAddress src name) samples =
      ({ st with
         writes := st.writes ++ [(mkFeedAddress src name, samples)],
         file := some (fs ++
           [.hk (mkRecord (mkFeedAddress src name) samples)]) }, none) ∧
    (mkRecord (mkFeedAddress src name) samples).agent_address = src ∧
    (mkRecord (mkFeedAddress src name) samples).feed = name ∧
    (∀ k, dget (mkRecord (mkFeedAddress src name) samples).tods k =
      (if perKey k samples = [] then none
       else some ((perKey k samples).map (fun e => e.2)))) ∧
    (∀ k, dget (mkRecord (mkFeedAddress src name) samples).timestamps k =
      (if perKey k samples = [] then none
       else some ((perKey k samples).map (fun e => e.1)))) ∧
    (∀ k vs ts,
      dget (mkRecord (mkFeedAddress src name) samples).tods k = some vs →
      dget (mkRecord (mkFeedAddress src name) samples).timestamps k = some ts →
      vs.length = ts.length) := by
  have hsplit := splitFeeds_mkFeedAddress src name hsrc hname
  refine ⟨?_, ?_, ?_, ?_, ?_, ?_⟩
  · simp only [write_frame_to_file, hsplit, hfile]
  · simp [mkRecord, hsplit]
  · simp [mkRecord, hsplit]
  · intro k
    simp only [mkRecord]
    exact dget_buildDict (fun v => v.2) k samples
  · intro k
    simp only [mkRecord]
    exact dget_buildDict (fun v => v.1) k samples
  · intro k vs ts hvs hts
    simp only [mkRecord] at hvs hts
    rw [dget_buildDict] at hvs hts
    by_cases h : perKey k samples = []
    · rw [if_pos h] at hvs
      cases hvs
    · rw [if_neg h] at hvs hts
      obtain rfl := Option.some.inj hvs
      obtain rfl := Option.some.inj hts
      simp

/-- C5 witness: serializing a two-key buffer for `obs.LS372.feeds.temps`
produces one record tagged `("obs.LS372", "temps")` whose columns hold
each key's readings and timestamps in arrival order with equal lengths
(and here the source id itself contains dots). -/
theorem C5_frame_serialization_witness :
    (mkRecord (mkFeedAddress "obs.LS372" "temps")
        [[("ch1", 0, 10)], [("ch1", 1, 11), ("ch2", 1, 20)]]).agent_address =
      "obs.LS372" ∧
    (mkRecord (mkFeedAddress "obs.LS372" "temps")
        [[("ch1", 0, 10)], [("ch1", 1, 11), ("ch2", 1, 20)]]).feed = "temps" ∧
    dget (mkRecord (mkFeedAddress "obs.LS372" "temps")
        [[("ch1", 0, 10)], [("ch1", 1, 11), ("ch2", 1, 20)]]).tods "ch1" =
      some [10, 11] ∧
    dget (mkRecord (mkFeedAddress "obs.LS372" "temps")
        [[("ch1", 0, 10)], [("ch1", 1, 11), ("ch2", 1, 20)]]).timestamps "ch1" =
      some [0, 1] ∧
    dget (mkRecord (mkFeedAddress "obs.LS372" "temps")
        [[("ch1", 0, 10)], [("ch1", 1, 11), ("ch2", 1, 20)]]).tods "nokey" =
      none := by
  have h := C5_frame_serialization "obs.LS372" "temps"
    [[("ch1", 0, 10)], [("ch1", 1, 11), ("ch2", 1, 20)]]
    ⟨[], [], [], true, some [], [], [], []⟩ [] (by decide) (by decide) rfl
  refine ⟨h.2.1, h.2.2.1, ?_, ?_, ?_⟩
  · rw [h.2.2.2.1 "ch1"]
    decide
  · rw [h.2.2.2.2.1 "ch1"]
    decide
  · rw [h.2.2.2.1 "nokey"]
    decide

/-! ### Exactly-once tracking helpers -/

theorem mem_keys_of_dget {β : Type} (d : List (String × β)) (a : String) (b : β)
    (h : dget d a = some b) : a ∈ d.map Prod.fst := by
  induction d with
  | nil => simp [dget] at h
  | cons p rest ih =>
      obtain ⟨k, v⟩ := p
      by_cases hk : k = a
      · simp [hk]
      · simp only [dget, hk, if_false] at h
        simp [ih h]

theorem flushWritesFor_append (addr : String)
    (w : List (String × List DataPoint)) (x : String × List DataPoint) :
    flushWritesFor addr (w ++ [x]) =
      flushWritesFor addr w ++ (if x.1 = addr then x.2 else []) := by
  by_cases h : x.1 = addr
  · simp [flushWritesFor, List.filter_append, h]
  · simp [flushWritesFor, List.filter_append, h]

theorem handler_nodup (st : AggState) (p : Payload) (m : FeedMeta) (now : ℤ)
    (h : NodupKeys st.buffers) :
    NodupKeys ((_data_handler st p m now).1).buffers := by
  simp only [_data_handler]
  split
  · exact h
  · split
    · split
      · rename_i b
        rcases hwf : write_frame_to_file st m.address b with ⟨st', e⟩
        obtain ⟨h1, -, -, -, -, -, -⟩ := wftf_spec st m.address b st' e hwf
        simpa [h1] using h
      · exact h
    · split
      · exact h
      · rename_i q
        split
        · exact h
        · rename_i _x buf hbuf
          have hb1 : (if buf = [] then
              { st with buffer_start_times := dset st.buffer_start_times m.address now }
              else st).buffers = st.buffers := by
            split <;> rfl
          split
          · rename_i heq
            split <;> exact h
          · rename_i t0 ht0
            split
            · rcases hwf : write_frame_to_file (if buf = [] then
                  { st with buffer_start_times := dset st.buffer_start_times m.address now }
                  else st) m.address buf with ⟨st2, e⟩
              obtain ⟨g1, -, -, -, -, -, -⟩ := wftf_spec _ m.address buf st2 e hwf
              rcases e with _ | e
              · show NodupKeys (dset (dset st2.buffers m.address []) m.address [q])
                rw [dset_dset]
                refine nodupKeys_dset _ _ _ ?_
                rw [g1, hb1]
                exact h
              · show NodupKeys st2.buffers
                rw [g1, hb1]
                exact h
            · show NodupKeys (dset _ m.address (buf ++ [q]))
              refine nodupKeys_dset _ _ _ ?_
              rw [hb1]
              exact h

theorem end_file_loop_nodup (L : List (String × List DataPoint)) (st : AggState)
    (h : NodupKeys st.buffers) :
    NodupKeys ((end_file_loop st L).1).buffers := by
  induction L generalizing st with
  | nil => simpa [end_file_loop] using h
  | cons kv rest ih =>
      obtain ⟨k, v⟩ := kv
      by_cases hv : v = []
      · simpa [end_file_loop, hv] using ih st h
      · simp only [end_file_loop, hv, if_false]
        rcases hwf : write_frame_to_file st k v with ⟨st', e⟩
        obtain ⟨h1, -, -, -, -, -, -⟩ := wftf_spec st k v st' e hwf
        rcases e with _ | e
        · refine ih { st' with buffers := dset st'.buffers k [] } ?_
          show NodupKeys (dset st'.buffers k [])
          refine nodupKeys_dset _ _ _ ?_
          rw [h1]
          exact h
        · show NodupKeys st'.buffers
          rw [h1]
          exact h

theorem end_file_nodup (st : AggState) (h : NodupKeys st.buffers) :
    NodupKeys ((end_file st).1).buffers := by
  unfold end_file
  split
  · rename_i stl el hl
    have := end_file_loop_nodup st.buffers st h
    rw [hl] at this
    exact this
  · rename_i stl hl
    have hstl : NodupKeys stl.buffers := by
      have := end_file_loop_nodup st.buffers st h
      rw [hl] at this
      exact this
    split
    · exact hstl
    · exact hstl

theorem end_file_loop_other (addr : String)
    (L : List (String × List DataPoint)) :
    ∀ st : AggState, addr ∉ L.map Prod.fst →
    dget ((end_file_loop st L).1).buffers addr = dget st.buffers addr ∧
    flushWritesFor addr ((end_file_loop st L).1).writes =
      flushWritesFor addr st.writes := by
  induction L with
  | nil =>
      intro st hmem
      simp [end_file_loop]
  | cons kv rest ih =>
      intro st hmem
      obtain ⟨k, v⟩ := kv
      simp only [List.map_cons, List.mem_cons] at hmem
      push_neg at hmem
      obtain ⟨hka, hrest⟩ := hmem
      by_cases hv : v = []
      · simpa [end_file_loop, hv] using ih st hrest
      · simp only [end_file_loop, hv, if_false]
        rcases hwf : write_frame_to_file st k v with ⟨st', e⟩
        obtain ⟨h1, -, -, -, -, h6, -⟩ := wftf_spec st k v st' e hwf
        have hwr : flushWritesFor addr st'.writes = flushWritesFor addr st.writes := by
          rw [h6, flushWritesFor_append]
          simp [Ne.symm hka]
        rcases e with _ | e
        · obtain ⟨g1, g2⟩ := ih { st' with buffers := dset st'.buffers k [] } hrest
          constructor
          · rw [g1]
            show dget (dset st'.buffers k []) addr = _
            rw [dget_dset_ne _ _ _ _ (Ne.symm hka), h1]
          · rw [g2, hwr]
        · exact ⟨by rw [h1], hwr⟩

theorem end_file_loop_cons_nil (st : AggState) (k : String)
    (rest : List (String × List DataPoint)) :
    end_file_loop st ((k, []) :: rest) = end_file_loop st rest := by
  simp [end_file_loop]

theorem end_file_loop_tracked (addr : String) (b : List DataPoint)
    (L : List (String × List DataPoint)) :
    ∀ st : AggState, (end_file_loop st L).2 = none →
    (L.map Prod.fst).Nodup →
    (∀ kw ∈ L, dget st.buffers kw.1 = some kw.2) →
    dget st.buffers addr = some b →
    addr ∈ L.map Prod.fst →
    dget ((end_file_loop st L).1).buffers addr = some [] ∧
    flushWritesFor addr ((end_file_loop st L).1).writes =
      flushWritesFor addr st.writes ++ b := by
  induction L generalizing b with
  | nil =>
      intro st herr hnd hL hbuf hmem
      simp at hmem
  | cons kv rest ih =>
      intro st herr hnd hL hbuf hmem
      obtain ⟨k, v⟩ := kv
      simp only [List.map_cons, List.nodup_cons] at hnd
      by_cases hka : k = addr
      · subst hka
        have hvb : v = b := by
          have := hL (k, v) (List.mem_cons_self _ _)
          rw [hbuf] at this
          exact Option.some.inj this.symm
        subst hvb
        have hrest : k ∉ rest.map Prod.fst := hnd.1
        by_cases hv : v = []
        · subst hv
          rw [end_file_loop_cons_nil] at herr ⊢
          obtain ⟨g1, g2⟩ := end_file_loop_other k rest st hrest
          exact ⟨by rw [g1, hbuf], by rw [g2]; simp⟩
        · simp only [end_file_loop, hv, if_false] at herr ⊢
          rcases hwf : write_frame_to_file st k v with ⟨st', e⟩
          rw [hwf] at herr
          obtain ⟨h1, -, -, -, -, h6, -⟩ := wftf_spec st k v st' e hwf
          rcases e with _ | e
          · obtain ⟨g1, g2⟩ :=
              end_file_loop_other k rest { st' with buffers := dset st'.buffers k [] }
                hrest
            refine ⟨?_, ?_⟩
            · rw [g1]
              exact dget_dset_self _ _ _
            · rw [g2]
              show flushWritesFor k st'.writes = _
              rw [h6, flushWritesFor_append]
              simp
          · simp at herr
      · have hmem2 : addr ∈ rest.map Prod.fst := by
          simp only [List.map_cons, List.mem_cons] at hmem
          rcases hmem with h | h
          · exact absurd h.symm hka
          · exact h
        by_cases hv : v = []
        · subst hv
          rw [end_file_loop_cons_nil] at herr ⊢
          exact ih b st herr hnd.2
            (fun kw hkw => hL kw (List.mem_cons_of_mem _ hkw)) hbuf hmem2
        · simp only [end_file_loop, hv, if_false] at herr ⊢
          rcases hwf : write_frame_to_file st k v with ⟨st', e⟩
          rw [hwf] at herr
          obtain ⟨h1, -, -, -, -, h6, -⟩ := wftf_spec st k v st' e hwf
          rcases e with _ | e
          · have hL2 : ∀ kw ∈ rest,
                dget ({ st' with buffers := dset st'.buffers k [] } : AggState).buffers
                  kw.1 = some kw.2 := by
              intro kw hkw
              have hkne : k ≠ kw.1 := by
                intro hkk
                exact hnd.1 (List.mem_map.mpr ⟨kw, hkw, hkk.symm⟩)
              show dget (dset st'.buffers k []) kw.1 = some kw.2
              rw [dget_dset_ne _ _ _ _ hkne, h1]
              exact hL kw (List.mem_cons_of_mem _ hkw)
            have hbuf2 : dget ({ st' with buffers := dset st'.buffers k [] } :
                AggState).buffers addr = some b := by
              show dget (dset st'.buffers k []) addr = some b
              rw [dget_dset_ne _ _ _ _ hka, h1]
              exact hbuf
            obtain ⟨g1, g2⟩ := ih b { st' with buffers := dset st'.buffers k [] }
              herr hnd.2 hL2 hbuf2 hmem2
            refine ⟨g1, ?_⟩
            rw [g2]
            show flushWritesFor addr st'.writes ++ b = _
            rw [h6, flushWritesFor_append]
            simp [hka]
          · simp at herr

theorem end_file_track (addr : String) (st st' : AggState)
    (herr : end_file st = (st', none))
    (hnd : NodupKeys st.buffers)
    (b : List DataPoint) (hbuf : dget st.buffers addr = some b) :
    dget st'.buffers addr = some [] ∧
    flushWritesFor addr st'.writes = flushWritesFor addr st.writes ++ b := by
  have hmem : addr ∈ st.buffers.map Prod.fst := mem_keys_of_dget _ _ _ hbuf
  unfold end_file at herr
  split at herr
  · rename_i stl el hl
    simp at herr
  · rename_i stl hl
    have htr := end_file_loop_tracked addr b st.buffers st (by rw [hl]) hnd
      (fun kw hkw => dget_of_mem_nodup st.buffers kw.1 kw.2 hnd hkw) hbuf hmem
    rw [hl] at htr
    split at herr
    · simp at herr
    · rename_i fs hf
      obtain ⟨rfl, -⟩ := Prod.mk.injEq .. ▸ herr
      exact htr

theorem handler_track (addr : String) (st : AggState) (p : Payload)
    (m : FeedMeta) (now : ℤ) (st' : AggState)
    (h : _data_handler st p m now = (st', none))
    (hagg : st.aggregate = true)
    (b : List DataPoint) (hbuf : dget st.buffers addr = some b)
    (hmeta : m.address = addr → m.buffered = false) :
    ∃ b', dget st'.buffers addr = some b' ∧
      flushWritesFor addr st'.writes ++ b' =
        flushWritesFor addr st.writes ++ b ++
          deliveredForE addr (.deliver p m now) := by
  cases p with
  | batch b2 =>
      simp only [_data_handler] at h
      split at h
      · rename_i hagg2
        rw [hagg] at hagg2
        cases hagg2
      · split at h
        · rename_i hbd
          have hne : m.address ≠ addr := by
            intro had
            rw [hmeta had] at hbd
            cases hbd
          obtain ⟨g1, -, -, -, -, g6, -⟩ := wftf_spec st m.address b2 st' none h
          refine ⟨b, by rw [g1]; exact hbuf, ?_⟩
          rw [g6, flushWritesFor_append]
          simp [deliveredForE, hne]
        · simp at h
  | point q =>
      simp only [_data_handler] at h
      split at h
      · rename_i hagg2
        rw [hagg] at hagg2
        cases hagg2
      · split at h
        · simp at h
        · rename_i hbd
          have hbd2 : m.buffered = false := by
            revert hbd
            cases m.buffered <;> simp
          split at h
          · simp at h
          · rename_i _x buf hbufm
            have hb1 : (if buf = [] then
                { st with buffer_start_times := dset st.buffer_start_times m.address now }
                else st).buffers = st.buffers := by
              split <;> rfl
            have hw1 : (if buf = [] then
                { st with buffer_start_times := dset st.buffer_start_times m.address now }
                else st).writes = st.writes := by
              split <;> rfl
            split at h
            · simp at h
            · rename_i t0 ht0
              split at h
              · split at h
                · simp at h
                · rename_i stw hwf
                  obtain ⟨rfl, -⟩ := Prod.mk.injEq .. ▸ h
                  obtain ⟨g1, -, -, -, -, g6, -⟩ :=
                    wftf_spec _ m.address buf stw none hwf
                  by_cases had : m.address = addr
                  · have hbb : buf = b := by
                      rw [had] at hbufm
                      rw [hbufm] at hbuf
                      exact Option.some.inj hbuf
                    subst hbb
                    refine ⟨[q], ?_, ?_⟩
                    · show dget (dset (dset stw.buffers m.address []) m.address [q])
                          addr = some [q]
                      rw [dset_dset, had]
                      exact dget_dset_self _ _ _
                    · show flushWritesFor addr stw.writes ++ [q] = _
                      rw [g6, hw1, flushWritesFor_append]
                      simp [deliveredForE, had, hbd2]
                  · refine ⟨b, ?_, ?_⟩
                    · show dget (dset (dset stw.buffers m.address []) m.address [q])
                          addr = some b
                      rw [dset_dset, dget_dset_ne _ _ _ _ had, g1, hb1]
                      exact hbuf
                    · show flushWritesFor addr stw.writes ++ b = _
                      rw [g6, hw1, flushWritesFor_append]
                      simp [deliveredForE, had]
              · obtain ⟨rfl, -⟩ := Prod.mk.injEq .. ▸ h
                by_cases had : m.address = addr
                · have hbb : buf = b := by
                    rw [had] at hbufm
                    rw [hbufm] at hbuf
                    exact Option.some.inj hbuf
                  subst hbb
                  refine ⟨buf ++ [q], ?_, ?_⟩
                  · show dget (dset _ m.address (buf ++ [q])) addr = some (buf ++ [q])
                    rw [had]
                    exact dget_dset_self _ _ _
                  · show flushWritesFor addr (if buf = [] then
                        { st with buffer_start_times := dset st.buffer_start_times m.address now }
                        else st).writes ++ (buf ++ [q]) = _
                    rw [hw1]
                    simp [deliveredForE, had, hbd2]
                · refine ⟨b, ?_, ?_⟩
                  · show dget (dset _ m.address (buf ++ [q])) addr = some b
                    rw [dget_dset_ne _ _ _ _ had, hb1]
                    exact hbuf
                  · show flushWritesFor addr (if buf = [] then
                        { st with buffer_start_times := dset st.buffer_start_times m.address now }
                        else st).writes ++ b = _
                    rw [hw1]
                    simp [deliveredForE, had]

theorem stepMid_track (addr : String) (st : AggState) (e : MidEvent)
    (st' : AggState)
    (herr : stepMid st e = (st', none))
    (hagg : st.aggregate = true)
    (hnd : NodupKeys st.buffers)
    (b : List DataPoint) (hbuf : dget st.buffers addr = some b)
    (hmeta : ∀ p m (t : ℤ), e = MidEvent.deliver p m t → m.address = addr →
      m.buffered = false) :
    st'.aggregate = true ∧ NodupKeys st'.buffers ∧
    ∃ b', dget st'.buffers addr = some b' ∧
      flushWritesFor addr st'.writes ++ b' =
        flushWritesFor addr st.writes ++ b ++ deliveredForE addr e := by
  cases e with
  | deliver p m t =>
      have herr2 : _data_handler st p m t = (st', none) := herr
      obtain ⟨b', hb', hfl⟩ := handler_track addr st p m t st' herr2 hagg b hbuf
        (fun had => hmeta p m t rfl had)
      have hsh := handler_shape st p m t
      rw [herr2] at hsh
      have hndp := handler_nodup st p m t hnd
      rw [herr2] at hndp
      exact ⟨by rw [hsh.2.1]; exact hagg, hndp, b', hb', hfl⟩
  | rotate =>
      simp only [stepMid] at herr
      split at herr
      · split at herr
        · simp at herr
        · rename_i st2 hef
          obtain ⟨rfl, -⟩ := Prod.mk.injEq .. ▸ herr
          obtain ⟨ht1, ht2⟩ := end_file_track addr st st2 hef hnd b hbuf
          have hnd2 := end_file_nodup st hnd
          rw [hef] at hnd2
          have hsh := end_file_shape st
          rw [hef] at hsh
          refine ⟨?_, ?_, [], ?_, ?_⟩
          · show (start_file st2).aggregate = true
            rw [(start_file_shape st2).2.1, hsh.2.1]
            exact hagg
          · show NodupKeys (start_file st2).buffers
            have hb2 : (start_file st2).buffers = st2.buffers := rfl
            rw [hb2]
            exact hnd2
          · show dget (start_file st2).buffers addr = some []
            have hb2 : (start_file st2).buffers = st2.buffers := rfl
            rw [hb2]
            exact ht1
          · show flushWritesFor addr (start_file st2).writes ++ [] = _
            have hw2 : (start_file st2).writes = st2.writes := rfl
            rw [hw2, ht2]
            simp [deliveredForE]
      · obtain ⟨rfl, -⟩ := Prod.mk.injEq .. ▸ herr
        refine ⟨hagg, hnd, b, hbuf, ?_⟩
        simp [deliveredForE, start_file]

theorem stepMids_track (addr : String) (mids : List MidEvent) :
    ∀ (st st' : AggState) (errs : List PyErr),
    stepMids st mids = (st', errs) → errs = [] →
    st.aggregate = true → NodupKeys st.buffers →
    ∀ b, dget st.buffers addr = some b →
    (∀ p m (t : ℤ), MidEvent.deliver p m t ∈ mids → m.address = addr →
      m.buffered = false) →
    st'.aggregate = true ∧ NodupKeys st'.buffers ∧
    ∃ b', dget st'.buffers addr = some b' ∧
      flushWritesFor addr st'.writes ++ b' =
        flushWritesFor addr st.writes ++ b ++ deliveredFor addr mids := by
  induction mids with
  | nil =>
      intro st st' errs heq herrs hagg hnd b hbuf hmeta
      simp only [stepMids] at heq
      obtain ⟨rfl, -⟩ := Prod.mk.injEq .. ▸ heq
      refine ⟨hagg, hnd, b, hbuf, ?_⟩
      simp [deliveredFor]
  | cons e rest ih =>
      intro st st' errs heq herrs hagg hnd b hbuf hmeta
      simp only [stepMids] at heq
      rcases hs : stepMid st e with ⟨st1, err1⟩
      rw [hs] at heq
      rcases hs2 : stepMids st1 rest with ⟨st2, errs2⟩
      rw [hs2] at heq
      obtain ⟨rfl, rfl⟩ := Prod.mk.injEq .. ▸ heq
      have herr1 : err1 = none := by
        rcases err1 with _ | err1
        · rfl
        · simp at herrs
      subst herr1
      have herrs2 : errs2 = [] := by simpa using herrs
      have hm1 : ∀ p m (t : ℤ), e = MidEvent.deliver p m t → m.address = addr →
          m.buffered = false := by
        intro p m t he had
        refine hmeta p m t ?_ had
        rw [he]
        exact List.mem_cons_self _ _
      obtain ⟨ha1, hn1, b1, hb1, hf1⟩ := stepMid_track addr st e st1 hs hagg hnd
        b hbuf hm1
      obtain ⟨ha2, hn2, b2, hb2, hf2⟩ := ih st1 st2 errs2 hs2 herrs2 ha1 hn1
        b1 hb1 (fun p m t hmem had => hmeta p m t (List.mem_cons_of_mem _ hmem) had)
      refine ⟨ha2, hn2, b2, hb2, ?_⟩
      show flushWritesFor addr st2.writes ++ b2 = _
      rw [hf2, hf1]
      simp [deliveredFor]

/-! ### Frame/record correspondence helpers -/

theorem hkFrames_append (fs gs : List OutFrame) :
    hkFrames (fs ++ gs) = hkFrames fs ++ hkFrames gs := by
  simp [hkFrames]

theorem hkJoin_append (a c : List (List OutFrame)) :
    hkJoin (a ++ c) = hkJoin a ++ hkJoin c := by
  simp [hkJoin]

theorem framesOK_wftf (st st' : AggState) (x : String) (bf : List DataPoint)
    (h : framesOK st) (hw : write_frame_to_file st x bf = (st', none)) :
    framesOK st' := by
  obtain ⟨fs, a, f, hsplit, hfile, hfile'⟩ := wftf_none st x bf st' hw
  obtain ⟨-, -, -, -, -, h6, h7⟩ := wftf_spec st x bf st' none hw
  unfold framesOK at h ⊢
  simp only [allFiles, hfile', hfile] at h ⊢
  rw [h6, h7]
  rw [hkJoin_append] at h ⊢
  simp only [hkJoin, List.flatMap_cons, List.flatMap_nil, List.append_nil] at h ⊢
  rw [hkFrames_append]
  simp only [hkFrames, List.filterMap_cons, List.filterMap_nil]
  simp only [hkFrames] at h
  rw [← List.append_assoc, h]
  simp

theorem framesOK_handler (st st' : AggState) (p : Payload) (m : FeedMeta)
    (now : ℤ) (h : framesOK st) (hh : _data_handler st p m now = (st', none)) :
    framesOK st' := by
  cases p with
  | batch b2 =>
      simp only [_data_handler] at hh
      split at hh
      · obtain ⟨rfl, -⟩ := Prod.mk.injEq .. ▸ hh
        exact h
      · split at hh
        · exact framesOK_wftf st st' m.address b2 h hh
        · simp at hh
  | point q =>
      simp only [_data_handler] at hh
      split at hh
      · obtain ⟨rfl, -⟩ := Prod.mk.injEq .. ▸ hh
        exact h
      · split at hh
        · simp at hh
        · split at hh
          · simp at hh
          · rename_i _x buf hbufm
            have hA : framesOK (if buf = [] then
                { st with buffer_start_times := dset st.buffer_start_times m.address now }
                else st) := by
              split <;> exact h
            split at hh
            · simp at hh
            · rename_i t0 ht0
              split at hh
              · split at hh
                · simp at hh
                · rename_i stw hwf
                  obtain ⟨rfl, -⟩ := Prod.mk.injEq .. ▸ hh
                  exact framesOK_wftf _ stw m.address buf hA hwf
              · obtain ⟨rfl, -⟩ := Prod.mk.injEq .. ▸ hh
                exact hA

theorem framesOK_end_file_loop (L : List (String × List DataPoint)) :
    ∀ st : AggState, framesOK st → (end_file_loop st L).2 = none →
    framesOK (end_file_loop st L).1 := by
  induction L with
  | nil =>
      intro st h herr
      simpa [end_file_loop] using h
  | cons kv rest ih =>
      intro st h herr
      obtain ⟨k, v⟩ := kv
      by_cases hv : v = []
      · subst hv
        rw [end_file_loop_cons_nil] at herr ⊢
        exact ih st h herr
      · simp only [end_file_loop, hv, if_false] at herr ⊢
        rcases hwf : write_frame_to_file st k v with ⟨st', e⟩
        rw [hwf] at herr
        rcases e with _ | e
        · exact ih _ (framesOK_wftf st st' k v h hwf) herr
        · simp at herr

theorem framesOK_end_file (st st' : AggState) (h : framesOK st)
    (he : end_file st = (st', none)) : framesOK st' := by
  unfold end_file at he
  split at he
  · simp at he
  · rename_i stl hl
    have hstl : framesOK stl := by
      have := framesOK_end_file_loop st.buffers st h (by rw [hl])
      rw [hl] at this
      exact this
    split at he
    · simp at he
    · rename_i fs hf
      obtain ⟨rfl, -⟩ := Prod.mk.injEq .. ▸ he
      unfold framesOK at hstl ⊢
      simp only [allFiles, hf] at hstl ⊢
      rw [hkJoin_append] at hstl ⊢
      simp only [hkJoin, List.flatMap_cons, List.flatMap_nil, List.append_nil] at hstl ⊢
      rw [hkFrames_append]
      simpa [hkFrames] using hstl

theorem framesOK_start_file (st : AggState) (h : framesOK st) :
    framesOK (start_file st) := by
  unfold framesOK at h ⊢
  unfold start_file allFiles
  rcases hf : st.file with _ | fs
  · simp only [allFiles, hf] at h
    simp [hkJoin_append, hkJoin, hkFrames]
    simpa using h
  · simp only [allFiles, hf] at h
    simp only [hkJoin_append]
    simp [hkJoin, hkFrames]
    rw [hkJoin_append] at h
    simpa [hkJoin] using h

theorem framesOK_stepMid (st st' : AggState) (e : MidEvent) (h : framesOK st)
    (hs : stepMid st e = (st', none)) : framesOK st' := by
  cases e with
  | deliver p m t => exact framesOK_handler st st' p m t h hs
  | rotate =>
      simp only [stepMid] at hs
      split at hs
      · split at hs
        · simp at hs
        · rename_i st2 hef
          obtain ⟨rfl, -⟩ := Prod.mk.injEq .. ▸ hs
          exact framesOK_start_file st2 (framesOK_end_file st st2 h hef)
      · obtain ⟨rfl, -⟩ := Prod.mk.injEq .. ▸ hs
        exact framesOK_start_file st h

theorem framesOK_stepMids (mids : List MidEvent) :
    ∀ st st' : AggState, ∀ errs, stepMids st mids = (st', errs) → errs = [] →
    framesOK st → framesOK st' := by
  induction mids with
  | nil =>
      intro st st' errs heq herrs h
      simp only [stepMids] at heq
      obtain ⟨rfl, -⟩ := Prod.mk.injEq .. ▸ heq
      exact h
  | cons e rest ih =>
      intro st st' errs heq herrs h
      simp only [stepMids] at heq
      rcases hs : stepMid st e with ⟨st1, err1⟩
      rw [hs] at heq
      rcases hs2 : stepMids st1 rest with ⟨st2, errs2⟩
      rw [hs2] at heq
      obtain ⟨rfl, rfl⟩ := Prod.mk.injEq .. ▸ heq
      have herr1 : err1 = none := by
        rcases err1 with _ | err1
        · rfl
        · simp at herrs
      subst herr1
      have herrs2 : errs2 = [] := by simpa using herrs
      exact ih st1 st2 errs2 hs2 herrs2 (framesOK_stepMid st st1 e h hs)

/-! ### Claim C1: no data loss across rotation or stop -/

/-- C1: for an error-free run on a clean aggregator state, an
engine-buffered feed loses and duplicates nothing: the concatenation of
every sample list the Frame Serializer received for the feed, in
invocation order, is exactly the list of samples delivered to the feed
during the run (each sample therefore lies in exactly one serialized
record); across the run every serialized record is exactly one
housekeeping frame of exactly one file; the feed's buffer is empty when
the run ends (every non-empty buffer was flushed before its segment
closed and before the process returned); and a delivery while the engine
is not aggregating is dropped without any state change. -/
theorem C1_no_data_loss (st0 : AggState) (mids : List MidEvent) (addr : String)
    (hw0 : st0.writes = [])
    (hcf0 : st0.closed_files = [])
    (hfile0 : st0.file = none)
    (hbuf0 : dget st0.buffers addr = some [])
    (hnd0 : NodupKeys st0.buffers)
    (herr : (runAgg st0 mids).2 = [])
    (hmeta : ∀ p m (t : ℤ), MidEvent.deliver p m t ∈ mids → m.address = addr →
      m.buffered = false) :
    flushWritesFor addr ((runAgg st0 mids).1).writes = deliveredFor addr mids ∧
    dget ((runAgg st0 mids).1).buffers addr = some [] ∧
    hkJoin (allFiles (runAgg st0 mids).1) =
      ((runAgg st0 mids).1).writes.map (fun w => mkRecord w.1 w.2) ∧
    (∀ st p m (now : ℤ), st.aggregate = false →
      _data_handler st p m now = (st, none)) := by
  have hi : start_agg_init st0 = (start_file { st0 with aggregate := true }, none) := by
    simp [start_agg_init, hfile0]
  have hstI_agg : (start_file { st0 with aggregate := true }).aggregate = true := rfl
  have hstI_buf : (start_file { st0 with aggregate := true }).buffers =
    st0.buffers := rfl
  have hstI_wr : (start_file { st0 with aggregate := true }).writes =
    st0.writes := rfl
  rcases hm : stepMids (start_file { st0 with aggregate := true }) mids
    with ⟨st2, errs2⟩
  rcases he : end_file (stop_aggregate st2).1 with ⟨st4, e4⟩
  rcases e4 with _ | e4
  · have hrun : runAgg st0 mids = (st4, errs2) := by
      simp [runAgg, hi, hm, he]
    have herrs2 : errs2 = [] := by
      rw [hrun] at herr
      exact herr
    have hbufI : dget (start_file { st0 with aggregate := true }).buffers addr =
        some [] := by
      rw [hstI_buf]
      exact hbuf0
    have hndI : NodupKeys (start_file { st0 with aggregate := true }).buffers := by
      rw [hstI_buf]
      exact hnd0
    obtain ⟨ha2, hn2, b2, hb2, hf2⟩ := stepMids_track addr mids _ st2 errs2 hm
      herrs2 hstI_agg hndI [] hbufI hmeta
    have hb3 : dget (stop_aggregate st2).1.buffers addr = some b2 := hb2
    have hn3 : NodupKeys (stop_aggregate st2).1.buffers := hn2
    obtain ⟨hbf, hfw⟩ := end_file_track addr (stop_aggregate st2).1 st4 he hn3
      b2 hb3
    have hfw2 : flushWritesFor addr st4.writes =
        flushWritesFor addr st2.writes ++ b2 := hfw
    have hfr0 : framesOK st0 := by
      unfold framesOK
      simp [allFiles, hcf0, hfile0, hw0, hkJoin]
    have hfrI : framesOK (start_file { st0 with aggregate := true }) :=
      framesOK_start_file _ hfr0
    have hfr2 : framesOK st2 := framesOK_stepMids mids _ st2 errs2 hm herrs2 hfrI
    have hfr3 : framesOK (stop_aggregate st2).1 := hfr2
    have hfr4 : framesOK st4 := framesOK_end_file _ st4 hfr3 he
    refine ⟨?_, ?_, ?_, ?_⟩
    · rw [hrun]
      show flushWritesFor addr st4.writes = _
      rw [hfw2, hf2, hstI_wr, hw0]
      simp [flushWritesFor]
    · rw [hrun]
      exact hbf
    · rw [hrun]
      exact hfr4
    · intro st p m now hagg
      exact handler_drop st p m now hagg
  · have hrun : runAgg st0 mids = (st4, errs2 ++ [e4]) := by
      simp [runAgg, hi, hm, he]
    rw [hrun] at herr
    simp at herr

/-- C1 witness: a concrete error-free run (two deliveries into one
window, a threshold flush, a rotation, a delivery, stop): the serializer
received exactly the delivered samples, the final buffer is empty, and
the files' frames are exactly the logged records. -/
theorem C1_no_data_loss_witness :
    flushWritesFor "dev1.feeds.therm"
      ((runAgg (add_feed init_state "dev1" "therm")
        [.deliver (.point [("ch1", 0, 10)]) ⟨"dev1.feeds.therm", false, 2⟩ 0,
         .deliver (.point [("ch1", 1, 11)]) ⟨"dev1.feeds.therm", false, 2⟩ 1,
         .deliver (.point [("ch1", 3, 12)]) ⟨"dev1.feeds.therm", false, 2⟩ 3,
         .rotate,
         .deliver (.point [("ch1", 4, 13)]) ⟨"dev1.feeds.therm", false, 2⟩ 4]).1).writes =
      deliveredFor "dev1.feeds.therm"
        [.deliver (.point [("ch1", 0, 10)]) ⟨"dev1.feeds.therm", false, 2⟩ 0,
         .deliver (.point [("ch1", 1, 11)]) ⟨"dev1.feeds.therm", false, 2⟩ 1,
         .deliver (.point [("ch1", 3, 12)]) ⟨"dev1.feeds.therm", false, 2⟩ 3,
         .rotate,
         .deliver (.point [("ch1", 4, 13)]) ⟨"dev1.feeds.therm", false, 2⟩ 4] ∧
    dget ((runAgg (add_feed init_state "dev1" "therm")
        [.deliver (.point [("ch1", 0, 10)]) ⟨"dev1.feeds.therm", false, 2⟩ 0,
         .deliver (.point [("ch1", 1, 11)]) ⟨"dev1.feeds.therm", false, 2⟩ 1,
         .deliver (.point [("ch1", 3, 12)]) ⟨"dev1.feeds.therm", false, 2⟩ 3,
         .rotate,
         .deliver (.point [("ch1", 4, 13)]) ⟨"dev1.feeds.therm", false, 2⟩ 4]).1).buffers
      "dev1.feeds.therm" = some [] := by
  have h := C1_no_data_loss (add_feed init_state "dev1" "therm")
    [.deliver (.point [("ch1", 0, 10)]) ⟨"dev1.feeds.therm", false, 2⟩ 0,
     .deliver (.point [("ch1", 1, 11)]) ⟨"dev1.feeds.therm", false, 2⟩ 1,
     .deliver (.point [("ch1", 3, 12)]) ⟨"dev1.feeds.therm", false, 2⟩ 3,
     .rotate,
     .deliver (.point [("ch1", 4, 13)]) ⟨"dev1.feeds.therm", false, 2⟩ 4]
    "dev1.feeds.therm" (by decide) (by decide) (by decide) (by decide)
    (by unfold NodupKeys; decide) (by decide)
    (by
      intro p m t hmem had
      simp only [List.mem_cons, List.mem_singleton] at hmem
      rcases hmem with h | h | h | h | h | h
      · injection h with hp hm2 ht
        subst hm2
        rfl
      · injection h with hp hm2 ht
        subst hm2
        rfl
      · injection h with hp hm2 ht
        subst hm2
        rfl
      · exact absurd h (by simp)
      · injection h with hp hm2 ht
        subst hm2
        rfl
      · simp at h)
  exact ⟨h.1, h.2.1⟩
